import Mathlib

/-!
# NutriCare (`App.js`): metrics calculator and patient store

A shallow embedding of the logic of `src/App.js`, and theorems about it.

* JavaScript numbers are IEEE-754 binary64 values.  They are modelled by `JSNum`:
  `NaN`, the two infinities, and the finite values as exact rationals.  Every arithmetic
  operator computes the exact rational result and rounds it to the nearest binary64 value
  (ties to even, gradual underflow, overflow to infinity) with `round64`.  The two zeros
  `+0` and `-0` are identified: they are `===`-equal, print alike, and no function of the
  program divides by a value that can be `-0`.
* `Number.prototype.toFixed`, `Number::toString`, `parseFloat`, `JSON.stringify` and
  `JSON.parse` follow ECMA-262.  JavaScript strings are taken as sequences of code points
  (no unpaired surrogates).
* The React state of the component (`pacientes`, `formData`, `imcResultado`), the durable
  `AsyncStorage` slot under the key `pacientes` and the alerts shown to the user form an
  explicit `AppState`; every handler is a function on that state, run to completion.  What
  the environment decides is an argument of the handler: the number that `Math.random()`
  returns, and whether a read or a write of the slot fails.  A handler that throws a
  `TypeError` returns nothing.
-/

namespace NutriCare

/-! ## JavaScript numbers -/

/-- A JavaScript Number: `NaN`, `+Infinity`, `-Infinity` or a finite value. -/
inductive JSNum where
  | nan
  | pinf
  | ninf
  | fin (q : ℚ)
deriving DecidableEq

/-- Two to the power `e`, for any integer `e`. -/
def pow2 (e : Int) : ℚ :=
  if 0 ≤ e then ((2 ^ e.toNat : Nat) : ℚ) else mkRat 1 (2 ^ (-e).toNat)

/-- Ten to the power `e`, for any integer `e`. -/
def pow10 (e : Int) : ℚ :=
  if 0 ≤ e then ((10 ^ e.toNat : Nat) : ℚ) else mkRat 1 (10 ^ (-e).toNat)

/-- Binary logarithm of a natural number, rounded down (`0` for `0` and `1`). -/
def log2Fuel : Nat → Nat → Nat
  | 0, _ => 0
  | fuel + 1, n => if n < 2 then 0 else log2Fuel fuel (n / 2) + 1

/-- The integer `e` with `2^e ≤ |q| < 2^(e+1)`, for `q ≠ 0`. -/
def ilog2 (q : ℚ) : Int :=
  let g : Int := (log2Fuel q.num.natAbs q.num.natAbs : Int) - (log2Fuel q.den q.den : Int)
  if pow2 g ≤ |q| then g else g - 1

/-- Nearest integer, ties to the even one. -/
def roundHalfEven (x : ℚ) : Int :=
  let f := Rat.floor x
  let r := x - f
  if r < 1 / 2 then f else if 1 / 2 < r then f + 1 else if f % 2 = 0 then f else f + 1

/-- Rounding of an exact real result to binary64: 53 significant bits, exponent at least
`-1022` (gradual underflow), round to nearest with ties to even, overflow to infinity. -/
def round64 (q : ℚ) : JSNum :=
  if q = 0 then .fin 0 else
  let e := max (ilog2 q) (-1022)
  let ulp := pow2 (e - 52)
  let r := (roundHalfEven (q / ulp) : ℚ) * ulp
  if pow2 1024 ≤ |r| then (if 0 < q then .pinf else .ninf) else .fin r

namespace JSNum

/-- Sign of a number that is not `NaN`: `1`, `0` or `-1`. -/
def sign : JSNum → Int
  | nan => 0
  | pinf => 1
  | ninf => -1
  | fin q => if 0 < q then 1 else if q < 0 then -1 else 0

/-- The infinity of the given sign (`NaN` for sign `0`). -/
def ofSign (s : Int) : JSNum :=
  if 0 < s then pinf else if s < 0 then ninf else nan

/-- The operator `*`. -/
def mul : JSNum → JSNum → JSNum
  | nan, _ => nan
  | _, nan => nan
  | fin a, fin b => round64 (a * b)
  | x, y => ofSign (sign x * sign y)

/-- The operator `/`.  A zero divisor counts as `+0`. -/
def div : JSNum → JSNum → JSNum
  | nan, _ => nan
  | _, nan => nan
  | fin a, fin b => if b = 0 then ofSign (sign (fin a)) else round64 (a / b)
  | fin _, _ => fin 0
  | x, fin b => if b < 0 then ofSign (- sign x) else x
  | _, _ => nan

/-- The operator `-`. -/
def sub : JSNum → JSNum → JSNum
  | nan, _ => nan
  | _, nan => nan
  | fin a, fin b => round64 (a - b)
  | pinf, pinf => nan
  | ninf, ninf => nan
  | pinf, _ => pinf
  | ninf, _ => ninf
  | fin _, pinf => ninf
  | fin _, ninf => pinf

/-- The operator `<`. -/
def lt : JSNum → JSNum → Bool
  | nan, _ => false
  | _, nan => false
  | fin a, fin b => decide (a < b)
  | ninf, ninf => false
  | ninf, _ => true
  | _, ninf => false
  | pinf, _ => false
  | fin _, pinf => true

/-- The operator `>=`. -/
def ge : JSNum → JSNum → Bool
  | nan, _ => false
  | _, nan => false
  | x, y => !(lt x y)

/-- The global function `isNaN` on a Number. -/
def isNaN : JSNum → Bool
  | nan => true
  | _ => false

/-- A numeric literal of the source text: the binary64 value nearest to its decimal value. -/
def lit (q : ℚ) : JSNum := round64 q

end JSNum

/-! ## Numbers to text: `Number::toString` and `Number.prototype.toFixed` -/

/-- The character of a decimal digit. -/
def digitChar (d : Nat) : Char := Char.ofNat (48 + d)

/-- Decimal digits of a natural number, most significant first, in front of `acc`. -/
def natDigitsFuel : Nat → Nat → List Char → List Char
  | 0, _, acc => acc
  | fuel + 1, n, acc =>
    if n < 10 then digitChar n :: acc
    else natDigitsFuel fuel (n / 10) (digitChar (n % 10) :: acc)

/-- The decimal representation of a natural number (`"0"` for zero). -/
def natDigits (n : Nat) : List Char := natDigitsFuel (n + 1) n []

/-- The integer `n` with `10^(n-1) ≤ q < 10^n`, for a positive binary64 value `q`. -/
def decExp (q : ℚ) : Int :=
  let c : Int := (ilog2 q * 30103) / 100000
  if q < pow10 c then c else if q < pow10 (c + 1) then c + 1 else c + 2

/-- Search for the shortest digit string: the least `k` at or after the given one, and an
`s` of `k` digits, such that `s * 10^(n-k)` rounds to `x`; of two such `s` the one nearer
to `x`, and the even one on a tie. -/
def shortestFuel (x : ℚ) (n : Int) : Nat → Nat → Option (Nat × Nat)
  | 0, _ => none
  | fuel + 1, k =>
    let scale := pow10 (n - k)
    let lo := (Rat.floor (x / scale)).toNat
    let hi := lo + 1
    let okLo : Bool := decide (10 ^ (k - 1) ≤ lo) && decide (lo < 10 ^ k) &&
      decide (round64 (lo * scale) = .fin x)
    let okHi : Bool := decide (10 ^ (k - 1) ≤ hi) && decide (hi < 10 ^ k) &&
      decide (round64 (hi * scale) = .fin x)
    let dLo := x - lo * scale
    let dHi := hi * scale - x
    if okLo && okHi then
      (if dLo < dHi then some (lo, k) else if dHi < dLo then some (hi, k)
       else if lo % 2 = 0 then some (lo, k) else some (hi, k))
    else if okLo then some (lo, k)
    else if okHi then some (hi, k)
    else shortestFuel x n fuel (k + 1)

/-- The integers `(s, n, k)` of step 5 of `Number::toString` for a positive finite `x`:
`k ≥ 1`, `10^(k-1) ≤ s < 10^k`, `s * 10^(n-k)` rounds to `x`, and `k` is as small as
possible. Seventeen digits always suffice for a binary64 value; to stay total the function
ends with the exact decimal expansion of `x` (a binary64 value is a multiple of
`10^(-1074)`), which no binary64 value reaches. -/
def shortestDigits (x : ℚ) : Nat × Int × Nat :=
  let n := decExp x
  if round64 (pow10 n) = .fin x then (1, n + 1, 1)
  else match shortestFuel x n 17 1 with
    | some (s, k) => (s, n, k)
    | none =>
      let s := (Rat.floor (x * 10 ^ 1074)).toNat
      (s, ((natDigits s).length : Int) - 1074, (natDigits s).length)

/-- Steps 6 to 10 of `Number::toString`: the text for the digits `s`, their number `k` and
the decimal exponent `n`. -/
def formatDigits (s : Nat) (n : Int) (k : Nat) : List Char :=
  let ds := natDigits s
  if (k : Int) ≤ n ∧ n ≤ 21 then ds ++ List.replicate (n - k).toNat '0'
  else if 0 < n ∧ n ≤ 21 then ds.take n.toNat ++ '.' :: ds.drop n.toNat
  else if -6 < n ∧ n ≤ 0 then '0' :: '.' :: (List.replicate (-n).toNat '0' ++ ds)
  else
    let e := n - 1
    let es := (if e < 0 then '-' else '+') :: natDigits e.natAbs
    if k = 1 then ds ++ 'e' :: es
    else ds.take 1 ++ '.' :: (ds.drop 1 ++ 'e' :: es)

/-- The text `Number::toString` of a positive finite value (radix 10), as a list of characters. -/
def posToChars (x : ℚ) : List Char :=
  formatDigits (shortestDigits x).1 (shortestDigits x).2.1 (shortestDigits x).2.2

namespace JSNum

/-- The text `Number::toString(x)`, radix 10, as a list of characters. -/
def toChars : JSNum → List Char
  | nan => "NaN".toList
  | pinf => "Infinity".toList
  | ninf => "-Infinity".toList
  | fin q =>
    if q = 0 then ['0']
    else if q < 0 then '-' :: posToChars (-q)
    else posToChars q

/-- The method `toString()` of a Number. -/
def toString (x : JSNum) : String := String.mk (toChars x)

/-- The integer `n` for which `n / 100 - x` is as close to zero as possible, the larger
one if there are two, for `x ≥ 0` (step 9.a of `Number.prototype.toFixed`). -/
def fixedInt (x : ℚ) : Nat := (Rat.floor (x * 100 + 1 / 2)).toNat

/-- Steps 9.b to 9.d of `Number.prototype.toFixed` with `f = 2`: the digits of `n`, padded
with zeros on the left to at least three characters, with a point before the last two. -/
def fixedChars (n : Nat) : List Char :=
  let m := natDigits n
  let m := if m.length ≤ 2 then List.replicate (3 - m.length) '0' ++ m else m
  m.take (m.length - 2) ++ '.' :: m.drop (m.length - 2)

/-- The call `x.toFixed(2)`, as a list of characters. -/
def toFixed2Chars : JSNum → List Char
  | fin q =>
    let s := if q < 0 then ['-'] else []
    let x := if q < 0 then -q else q
    if pow10 21 ≤ x then s ++ toChars (fin x)
    else s ++ fixedChars (fixedInt x)
  | x => toChars x

/-- The call `x.toFixed(2)`. -/
def toFixed2 (x : JSNum) : String := String.mk (toFixed2Chars x)

end JSNum

/-! ## Metrics calculator -/

/-- The object returned by `calcularIMC`. -/
structure IMC where
  valor : String
  classificacao : String
deriving DecidableEq

/-- The function `calcularIMC` (lines 57 to 70). -/
def calcularIMC (peso altura : JSNum) : IMC :=
  let imc := JSNum.div peso (JSNum.mul altura altura)
  let classificacao :=
    if JSNum.lt imc (JSNum.lit (37 / 2)) then "Abaixo do peso"
    else if JSNum.ge imc (JSNum.lit (37 / 2)) && JSNum.lt imc (JSNum.lit (249 / 10)) then
      "Peso normal"
    else if JSNum.ge imc (JSNum.lit 25) && JSNum.lt imc (JSNum.lit (299 / 10)) then
      "Sobrepeso"
    else "Obesidade"
  { valor := JSNum.toFixed2 imc, classificacao := classificacao }

/-- The function `calcularPesoIdeal` (lines 72 to 82). -/
def calcularPesoIdeal (altura : JSNum) (sexo : String) : String :=
  let alturaCm := JSNum.mul altura (JSNum.lit 100)
  let pesoIdeal :=
    if sexo = "masculino" then
      JSNum.sub (JSNum.sub alturaCm (JSNum.lit 100))
        (JSNum.div (JSNum.sub alturaCm (JSNum.lit 150)) (JSNum.lit 4))
    else
      JSNum.sub (JSNum.sub alturaCm (JSNum.lit 100))
        (JSNum.div (JSNum.sub alturaCm (JSNum.lit 150)) (JSNum.lit 2))
  JSNum.toFixed2 pesoIdeal


/-! ## Specification-side vocabulary for the calculator -/

/-- The binary64 value of the literal `24.9`, which is 24.899999999999998578... -/
def d249 : ℚ := 3504363460047667 / 140737488355328

/-- The binary64 value of the literal `29.9`, which is 29.899999999999998578... -/
def d299 : ℚ := 4208050901824307 / 140737488355328

namespace JSNum

/-- The number lies strictly below the threshold `t`; `NaN` lies nowhere. -/
def below (v : JSNum) (t : ℚ) : Prop :=
  match v with
  | fin q => q < t
  | ninf => True
  | _ => False

/-- The number lies at or above the threshold `t`; `NaN` lies nowhere. -/
def atLeast (v : JSNum) (t : ℚ) : Prop :=
  match v with
  | fin q => t ≤ q
  | pinf => True
  | _ => False

instance (v : JSNum) (t : ℚ) : Decidable (v.below t) := by
  cases v <;> unfold below <;> infer_instance

instance (v : JSNum) (t : ℚ) : Decidable (v.atLeast t) := by
  cases v <;> unfold atLeast <;> infer_instance

end JSNum

/-- The text of `n` hundredths in fixed notation: the digits of the integer part, a point,
and exactly two decimal digits. -/
def duasCasas (n : Nat) : List Char :=
  natDigits (n / 100) ++ ['.', digitChar (n / 10 % 10), digitChar (n % 10)]

/-- The number that the text `x.toFixed(2)` denotes, for a finite `x` below `10^21` in
magnitude: the nearest multiple of one hundredth, the one farther from zero on a tie. -/
def valorDecimal (q : ℚ) : ℚ :=
  if q < 0 then -((JSNum.fixedInt (-q) : ℚ) / 100) else (JSNum.fixedInt q : ℚ) / 100

/-- The band of a decimal value in the table of the specification: underweight below 18.5,
normal from 18.5 to below 24.9, overweight from 24.9 to below 29.9 (the specification
places the values from 24.9 to 25 in the overweight band), obese from 29.9 on. This table
is written from the specification, not from the tests of `calcularIMC`. -/
def faixa (x : ℚ) : String :=
  if x < 37 / 2 then "Abaixo do peso"
  else if x < 249 / 10 then "Peso normal"
  else if x < 299 / 10 then "Sobrepeso"
  else "Obesidade"

/-! ## Text to numbers: `parseFloat` -/

/-- Decimal digit test. -/
def isDigit (c : Char) : Bool := decide (48 ≤ c.toNat ∧ c.toNat ≤ 57)

/-- Value of a run of decimal digits, continuing from `acc`. -/
def digitsVal (acc : Nat) : List Char → Nat
  | [] => acc
  | c :: cs => digitsVal (acc * 10 + (c.toNat - 48)) cs

/-- The longest run of decimal digits at the front of the text, and what follows it. -/
def spanDigits : List Char → List Char × List Char
  | [] => ([], [])
  | c :: cs =>
    if isDigit c then ((spanDigits cs).1.cons c, (spanDigits cs).2) else ([], c :: cs)

/-- The characters `StrWhiteSpaceChar` that `parseFloat` skips at the front: white space
and line terminators. -/
def isStrWhiteSpace (c : Char) : Bool :=
  let n := c.toNat
  decide (n = 9 ∨ n = 10 ∨ n = 11 ∨ n = 12 ∨ n = 13 ∨ n = 32 ∨ n = 160 ∨ n = 5760 ∨
    (8192 ≤ n ∧ n ≤ 8202) ∨ n = 8232 ∨ n = 8233 ∨ n = 8239 ∨ n = 8287 ∨ n = 12288 ∨
    n = 65279)

/-- Removal of leading characters that satisfy `p`. -/
def dropLeading (p : Char → Bool) : List Char → List Char
  | [] => []
  | c :: cs => if p c then dropLeading p cs else c :: cs

/-- Whether the text starts with the character `c`. -/
def startsWith (c : Char) : List Char → Bool
  | [] => false
  | d :: _ => decide (d = c)

/-- An exponent part `e`, `E` with an optional sign and at least one digit, if the text
starts with one: its value and what follows; otherwise exponent zero and the text. -/
def exponentPart (cs : List Char) : Int × List Char :=
  if startsWith 'e' cs || startsWith 'E' cs then
    let r := cs.tail
    let neg := startsWith '-' r
    let r1 := if startsWith '-' r || startsWith '+' r then r.tail else r
    if (spanDigits r1).1 = [] then (0, cs)
    else if neg then (- (digitsVal 0 (spanDigits r1).1 : Int), (spanDigits r1).2)
    else ((digitsVal 0 (spanDigits r1).1 : Int), (spanDigits r1).2)
  else (0, cs)

/-- The longest front of the text that is an unsigned `StrDecimalLiteral` other than
`Infinity`: digits with an optional fraction and exponent, or a point followed by digits.
The result is its exact value, or nothing if the text starts with no such literal. -/
def unsignedDecimal (cs : List Char) : Option ℚ :=
  let ip := (spanDigits cs).1
  let r1 := (spanDigits cs).2
  let fp := if startsWith '.' r1 then (spanDigits r1.tail).1 else []
  let r2 := if startsWith '.' r1 then (spanDigits r1.tail).2 else r1
  if ip = [] ∧ fp = [] then none
  else some ((digitsVal 0 (ip ++ fp) : ℚ) * pow10 ((exponentPart r2).1 - fp.length))

/-- The global function `parseFloat` applied to a string. -/
def parseFloat (s : String) : JSNum :=
  let cs := dropLeading isStrWhiteSpace s.toList
  let neg := startsWith '-' cs
  let body := if startsWith '-' cs || startsWith '+' cs then cs.tail else cs
  if "Infinity".toList.isPrefixOf body then (if neg then .ninf else .pinf)
  else match unsignedDecimal body with
    | none => .nan
    | some q => round64 (if neg then -q else q)

/-! ## Values and JSON -/

/-- The JavaScript values that occur in the patient store: what `JSON.parse` can return
and what `adicionarPaciente` builds. Objects list their properties in enumeration
order. -/
inductive JSVal where
  | null
  | bool (b : Bool)
  | num (x : JSNum)
  | str (s : String)
  | arr (xs : List JSVal)
  | obj (props : List (String × JSVal))

mutual
/-- Decidable equality of values. -/
def JSVal.decEq : (a b : JSVal) → Decidable (a = b)
  | .null, .null => isTrue rfl
  | .null, .bool _ => isFalse nofun
  | .null, .num _ => isFalse nofun
  | .null, .str _ => isFalse nofun
  | .null, .arr _ => isFalse nofun
  | .null, .obj _ => isFalse nofun
  | .bool _, .null => isFalse nofun
  | .bool x, .bool y =>
    if h : x = y then isTrue (congrArg JSVal.bool h)
    else isFalse (fun e => h (JSVal.bool.inj e))
  | .bool _, .num _ => isFalse nofun
  | .bool _, .str _ => isFalse nofun
  | .bool _, .arr _ => isFalse nofun
  | .bool _, .obj _ => isFalse nofun
  | .num _, .null => isFalse nofun
  | .num _, .bool _ => isFalse nofun
  | .num x, .num y =>
    if h : x = y then isTrue (congrArg JSVal.num h)
    else isFalse (fun e => h (JSVal.num.inj e))
  | .num _, .str _ => isFalse nofun
  | .num _, .arr _ => isFalse nofun
  | .num _, .obj _ => isFalse nofun
  | .str _, .null => isFalse nofun
  | .str _, .bool _ => isFalse nofun
  | .str _, .num _ => isFalse nofun
  | .str x, .str y =>
    if h : x = y then isTrue (congrArg JSVal.str h)
    else isFalse (fun e => h (JSVal.str.inj e))
  | .str _, .arr _ => isFalse nofun
  | .str _, .obj _ => isFalse nofun
  | .arr _, .null => isFalse nofun
  | .arr _, .bool _ => isFalse nofun
  | .arr _, .num _ => isFalse nofun
  | .arr _, .str _ => isFalse nofun
  | .arr x, .arr y =>
    match JSVal.decEqList x y with
    | isTrue h => isTrue (congrArg JSVal.arr h)
    | isFalse h => isFalse (fun e => h (JSVal.arr.inj e))
  | .arr _, .obj _ => isFalse nofun
  | .obj _, .null => isFalse nofun
  | .obj _, .bool _ => isFalse nofun
  | .obj _, .num _ => isFalse nofun
  | .obj _, .str _ => isFalse nofun
  | .obj _, .arr _ => isFalse nofun
  | .obj x, .obj y =>
    match JSVal.decEqProps x y with
    | isTrue h => isTrue (congrArg JSVal.obj h)
    | isFalse h => isFalse (fun e => h (JSVal.obj.inj e))
/-- Decidable equality of lists of values. -/
def JSVal.decEqList : (a b : List JSVal) → Decidable (a = b)
  | [], [] => isTrue rfl
  | [], _ :: _ => isFalse nofun
  | _ :: _, [] => isFalse nofun
  | x :: xs, y :: ys =>
    match JSVal.decEq x y, JSVal.decEqList xs ys with
    | isTrue h, isTrue t => isTrue (by rw [h, t])
    | isFalse h, _ => isFalse (fun e => h (List.cons.inj e).1)
    | _, isFalse t => isFalse (fun e => t (List.cons.inj e).2)
/-- Decidable equality of property lists. -/
def JSVal.decEqProps : (a b : List (String × JSVal)) → Decidable (a = b)
  | [], [] => isTrue rfl
  | [], _ :: _ => isFalse nofun
  | _ :: _, [] => isFalse nofun
  | (k, x) :: xs, (l, y) :: ys =>
    match String.decEq k l, JSVal.decEq x y, JSVal.decEqProps xs ys with
    | isTrue hk, isTrue h, isTrue t => isTrue (by rw [hk, h, t])
    | isFalse hk, _, _ => isFalse (fun e => hk (Prod.mk.inj (List.cons.inj e).1).1)
    | _, isFalse h, _ => isFalse (fun e => h (Prod.mk.inj (List.cons.inj e).1).2)
    | _, _, isFalse t => isFalse (fun e => t (List.cons.inj e).2)
end

instance : DecidableEq JSVal := JSVal.decEq

namespace JSON

/-- A lower-case hexadecimal digit. -/
def hexChar (d : Nat) : Char := if d < 10 then Char.ofNat (48 + d) else Char.ofNat (87 + d)

/-- The operation `QuoteJSONString` for one code point. -/
def quoteChar (c : Char) : List Char :=
  if c = '\x08' then ['\x5c', 'b']
  else if c = '\x09' then ['\x5c', 't']
  else if c = '\x0a' then ['\x5c', 'n']
  else if c = '\x0c' then ['\x5c', 'f']
  else if c = '\x0d' then ['\x5c', 'r']
  else if c = '\x22' then ['\x5c', '\x22']
  else if c = '\x5c' then ['\x5c', '\x5c']
  else if c.toNat < 32 then ['\x5c', 'u', '0', '0', hexChar (c.toNat / 16), hexChar (c.toNat % 16)]
  else [c]

/-- The operation `QuoteJSONString`: the text of a string between double quotes, with escapes. -/
def quote (s : String) : List Char :=
  '\x22' :: (s.toList.flatMap quoteChar ++ ['\x22'])

mutual
/-- The operation `SerializeJSONProperty` for a value: non-finite numbers are written `null`. -/
def write : JSVal → List Char
  | .null => "null".toList
  | .bool true => "true".toList
  | .bool false => "false".toList
  | .num (.fin q) => JSNum.toChars (.fin q)
  | .num _ => "null".toList
  | .str s => quote s
  | .arr xs => '[' :: (writeElems xs ++ [']'])
  | .obj ps => '\x7b' :: (writeMembers ps ++ ['\x7d'])
/-- The elements of an array, separated by commas. -/
def writeElems : List JSVal → List Char
  | [] => []
  | [x] => write x
  | x :: y :: xs => write x ++ ',' :: writeElems (y :: xs)
/-- The members of an object, separated by commas. -/
def writeMembers : List (String × JSVal) → List Char
  | [] => []
  | [(k, x)] => quote k ++ ':' :: write x
  | (k, x) :: p :: ps => quote k ++ ':' :: write x ++ ',' :: writeMembers (p :: ps)
end

/-- The function `JSON.stringify` with one argument. -/
def stringify (v : JSVal) : String := String.mk (write v)

/-- JSON white space: tab, line feed, carriage return and space. -/
def isWhite (c : Char) : Bool := c = '\x09' || c = '\x0a' || c = '\x0d' || c = ' '

/-- Value of a hexadecimal digit. -/
def hexVal (c : Char) : Option Nat :=
  let n := c.toNat
  if 48 ≤ n ∧ n ≤ 57 then some (n - 48)
  else if 97 ≤ n ∧ n ≤ 102 then some (n - 87)
  else if 65 ≤ n ∧ n ≤ 70 then some (n - 55)
  else none

/-- Four hexadecimal digits as a number. -/
def hex4 (a b c d : Char) : Option Nat :=
  match hexVal a, hexVal b, hexVal c, hexVal d with
  | some x, some y, some z, some w => some (((x * 16 + y) * 16 + z) * 16 + w)
  | _, _, _, _ => none

/-- The character that an escape letter of a JSON string stands for. -/
def escapeChar (e : Char) : Option Char :=
  if e = '\x22' then some '\x22'
  else if e = '\x5c' then some '\x5c'
  else if e = '/' then some '/'
  else if e = 'b' then some '\x08'
  else if e = 'f' then some '\x0c'
  else if e = 'n' then some '\x0a'
  else if e = 'r' then some '\x0d'
  else if e = 't' then some '\x09'
  else none

/-- The rest of a JSON string after its opening quote: the code units or code points up to
the closing quote, with escapes resolved, and what follows the closing quote. -/
def readUnits : List Char → Option (List Nat × List Char)
  | [] => none
  | c :: r =>
    if c = '\x22' then some ([], r)
    else if c = '\x5c' then
      match r with
      | [] => none
      | e :: r1 =>
        if e = 'u' then
          match r1 with
          | a :: b :: x :: d :: r2 =>
            match hex4 a b x d with
            | none => none
            | some n => (readUnits r2).map fun p => (n :: p.1, p.2)
          | _ => none
        else
          match escapeChar e with
          | none => none
          | some x => (readUnits r1).map fun p => (x.toNat :: p.1, p.2)
    else if c.toNat < 32 then none
    else (readUnits r).map fun p => (c.toNat :: p.1, p.2)

/-- The string of a sequence of code units: a high surrogate followed by a low one is one
code point; an unpaired surrogate, which a Lean string cannot hold, becomes U+FFFD. -/
def combineUnits (pending : Option Nat) : List Nat → List Char
  | [] =>
    match pending with
    | some _ => [Char.ofNat 65533]
    | none => []
  | u :: us =>
    match pending with
    | some hi =>
      if 56320 ≤ u ∧ u < 57344 then
        Char.ofNat (65536 + (hi - 55296) * 1024 + (u - 56320)) :: combineUnits none us
      else if 55296 ≤ u ∧ u < 56320 then Char.ofNat 65533 :: combineUnits (some u) us
      else Char.ofNat 65533 :: Char.ofNat u :: combineUnits none us
    | none =>
      if 55296 ≤ u ∧ u < 56320 then combineUnits (some u) us
      else Char.ofNat u :: combineUnits none us

/-- The rest of a JSON string after its opening quote: its value and what follows. -/
def readString (cs : List Char) : Option (String × List Char) :=
  (readUnits cs).map fun p => (String.mk (combineUnits none p.1), p.2)

/-- A JSON number at the front of the text: an optional minus sign, an integer part
without superfluous leading zero, an optional fraction and an optional exponent. The result
is the binary64 value and what follows. -/
def readNumber (cs : List Char) : Option (JSNum × List Char) :=
  let neg := startsWith '-' cs
  let body := if neg then cs.tail else cs
  let ip := if startsWith '0' body then ['0'] else (spanDigits body).1
  let r1 := if startsWith '0' body then body.tail else (spanDigits body).2
  let fp := if startsWith '.' r1 then (spanDigits r1.tail).1 else []
  let r2 := if startsWith '.' r1 then (spanDigits r1.tail).2 else r1
  let badFrac := startsWith '.' r1 && decide (fp = [])
  let badExp := (startsWith 'e' r2 || startsWith 'E' r2) && decide ((exponentPart r2).2 = r2)
  if ip = [] then none
  else if badFrac || badExp then none
  else
    let q := (digitsVal 0 (ip ++ fp) : ℚ) * pow10 ((exponentPart r2).1 - fp.length)
    some (round64 (if neg then -q else q), (exponentPart r2).2)

/-- Whether a property key is an array index: a canonical decimal numeral up to
`2^32 - 2`. Such keys come first, in ascending order, when an object is enumerated. -/
def arrayIndex (k : String) : Option Nat :=
  let cs := k.toList
  if cs ≠ [] ∧ cs.all isDigit ∧ (cs = ['0'] ∨ cs.head? ≠ some '0') ∧
      digitsVal 0 cs < 4294967295 then some (digitsVal 0 cs)
  else none

/-- Insertion of a new array-index key at its place among the array-index keys. -/
def insertIndex (i : Nat) (k : String) (v : JSVal) :
    List (String × JSVal) → List (String × JSVal)
  | [] => [(k, v)]
  | p :: ps =>
    match arrayIndex p.1 with
    | some j => if j < i then p :: insertIndex i k v ps else (k, v) :: p :: ps
    | none => (k, v) :: p :: ps

/-- The operation `CreateDataProperty`: a key already present keeps its place and takes the new value; a
new array-index key goes to its place among the indices; any other new key goes last. -/
def setProp (k : String) (v : JSVal) (ps : List (String × JSVal)) : List (String × JSVal) :=
  if ps.any (fun p => p.1 = k) then ps.map (fun p => if p.1 = k then (k, v) else p)
  else match arrayIndex k with
    | some i => insertIndex i k v ps
    | none => ps ++ [(k, v)]

/-- The text after a given keyword, if the text starts with it. -/
def afterWord (w : List Char) (cs : List Char) : Option (List Char) :=
  if w.isPrefixOf cs then some (cs.drop w.length) else none

mutual
/-- A JSON value at the front of the text, after optional white space: the value and what
follows it. The first argument bounds the depth of the recursion. -/
def readValue : Nat → List Char → Option (JSVal × List Char)
  | 0, _ => none
  | fuel + 1, cs =>
    match dropLeading isWhite cs with
    | [] => none
    | c :: r =>
      if c = 'n' then (afterWord "ull".toList r).map fun r1 => (.null, r1)
      else if c = 't' then (afterWord "rue".toList r).map fun r1 => (.bool true, r1)
      else if c = 'f' then (afterWord "alse".toList r).map fun r1 => (.bool false, r1)
      else if c = '\x22' then (readString r).map fun p => (.str p.1, p.2)
      else if c = '[' then
        if startsWith ']' (dropLeading isWhite r) then
          some (.arr [], (dropLeading isWhite r).tail)
        else (readElems fuel r).map fun p => (.arr p.1, p.2)
      else if c = '\x7b' then
        if startsWith '\x7d' (dropLeading isWhite r) then
          some (.obj [], (dropLeading isWhite r).tail)
        else (readMembers fuel r).map fun p =>
          (.obj (p.1.foldl (fun ps m => setProp m.1 m.2 ps) []), p.2)
      else (readNumber (c :: r)).map fun p => (.num p.1, p.2)
/-- One or more array elements separated by commas, up to the closing bracket. -/
def readElems : Nat → List Char → Option (List JSVal × List Char)
  | 0, _ => none
  | fuel + 1, cs =>
    match readValue fuel cs with
    | none => none
    | some (v, r) =>
      if startsWith ',' (dropLeading isWhite r) then
        (readElems fuel (dropLeading isWhite r).tail).map fun p => (v :: p.1, p.2)
      else if startsWith ']' (dropLeading isWhite r) then
        some ([v], (dropLeading isWhite r).tail)
      else none
/-- One or more object members separated by commas, up to the closing brace, in the order
of the text. -/
def readMembers : Nat → List Char → Option (List (String × JSVal) × List Char)
  | 0, _ => none
  | fuel + 1, cs =>
    if startsWith '\x22' (dropLeading isWhite cs) then
      match readString (dropLeading isWhite cs).tail with
      | none => none
      | some (k, r1) =>
        if startsWith ':' (dropLeading isWhite r1) then
          match readValue fuel (dropLeading isWhite r1).tail with
          | none => none
          | some (v, r3) =>
            if startsWith ',' (dropLeading isWhite r3) then
              (readMembers fuel (dropLeading isWhite r3).tail).map fun p =>
                ((k, v) :: p.1, p.2)
            else if startsWith '\x7d' (dropLeading isWhite r3) then
              some ([(k, v)], (dropLeading isWhite r3).tail)
            else none
        else none
    else none
end

/-- The function `JSON.parse` with one argument: the value of the text, or nothing where
JavaScript throws a `SyntaxError`. The text is one JSON value between optional white
space. -/
def parse (s : String) : Option JSVal :=
  match readValue (2 * s.length + 2) s.toList with
  | none => none
  | some (v, r) => if dropLeading isWhite r = [] then some v else none

end JSON

/-! ## Patient store -/

/-- The state `formData`: the fields of the registration form, all strings. -/
structure FormData where
  nome : String
  peso : String
  altura : String
  idade : String
  sexo : String
  telefone : String
  email : String
  endereco : String
deriving DecidableEq

/-- The state of the component `App` that the store uses, the durable slot of
`AsyncStorage` under the key `pacientes`, and the alerts shown so far. -/
structure AppState where
  formData : FormData
  pacientes : JSVal
  imcResultado : Option IMC
  armazenado : Option String
  alertas : List (String × String)
deriving DecidableEq

/-- The state at mount (lines 16 to 28), over a given content of the durable slot. -/
def estadoInicial (armazenado : Option String) : AppState :=
  { formData :=
      { nome := "", peso := "", altura := "", idade := "", sexo := "masculino",
        telefone := "", email := "", endereco := "" }
    pacientes := .arr []
    imcResultado := none
    armazenado := armazenado
    alertas := [] }

/-- The call `Alert.alert(titulo, mensagem)`. -/
def alertar (titulo mensagem : String) (st : AppState) : AppState :=
  { st with alertas := st.alertas ++ [(titulo, mensagem)] }

/-- The function `carregarPacientes` run by the mount effect (lines 30 to 43). The flag
says whether `AsyncStorage.getItem` rejects. An absent slot and the empty string are falsy
and leave the state alone; a text that `JSON.parse` rejects ends in the `catch`. -/
def carregarPacientes (leituraFalha : Bool) (st : AppState) : AppState :=
  if leituraFalha then alertar "Erro" "Não foi possível carregar os pacientes." st
  else match st.armazenado with
    | none => st
    | some pacientesSalvos =>
      if pacientesSalvos = "" then st
      else match JSON.parse pacientesSalvos with
        | some v => { st with pacientes := v }
        | none => alertar "Erro" "Não foi possível carregar os pacientes." st

/-- The function `salvarPacientes` (lines 45 to 51). The flag says whether
`AsyncStorage.setItem` rejects, in which case the slot keeps its content. -/
def salvarPacientes (escritaFalha : Bool) (novosPacientes : JSVal) (st : AppState) :
    AppState :=
  if escritaFalha then alertar "Erro" "Não foi possível salvar os pacientes." st
  else { st with armazenado := some (JSON.stringify novosPacientes) }

/-- The function `handleInputChange` (lines 53 to 55) for the fields of the form. -/
def handleInputChange (name value : String) (st : AppState) : AppState :=
  let f := st.formData
  if name = "nome" then { st with formData := { f with nome := value } }
  else if name = "peso" then { st with formData := { f with peso := value } }
  else if name = "altura" then { st with formData := { f with altura := value } }
  else if name = "idade" then { st with formData := { f with idade := value } }
  else if name = "sexo" then { st with formData := { f with sexo := value } }
  else if name = "telefone" then { st with formData := { f with telefone := value } }
  else if name = "email" then { st with formData := { f with email := value } }
  else if name = "endereco" then { st with formData := { f with endereco := value } }
  else st

/-- The elements that the spread `[...pacientes]` yields: those of an array, the code
points of a string; nothing for a value that is not iterable, where JavaScript throws a
`TypeError`. -/
def espalhar : JSVal → Option (List JSVal)
  | .arr xs => some xs
  | .str s => some (s.toList.map fun c => .str (String.mk [c]))
  | _ => none

/-- The object literal `novoPaciente` (lines 107 to 120). -/
def novoPaciente (id : String) (f : FormData) (pesoNum alturaNum : JSNum) (imcData : IMC) :
    JSVal :=
  .obj [("id", .str id), ("nome", .str f.nome), ("peso", .num pesoNum),
    ("altura", .num alturaNum), ("idade", .str f.idade), ("sexo", .str f.sexo),
    ("telefone", .str f.telefone), ("email", .str f.email), ("endereco", .str f.endereco),
    ("imc", .str imcData.valor), ("classificacao", .str imcData.classificacao),
    ("pesoIdeal", .str (calcularPesoIdeal alturaNum f.sexo))]

/-- The function `adicionarPaciente` (lines 84 to 126). `aleatorio` is the number that
`Math.random()` returns and `escritaFalha` says whether the write to the slot rejects. The
result is nothing where JavaScript throws a `TypeError` (the spread of a `pacientes` that
is not iterable). -/
def adicionarPaciente (aleatorio : JSNum) (escritaFalha : Bool) (st : AppState) :
    Option AppState :=
  let f := st.formData
  if f.nome = "" ∨ f.peso = "" ∨ f.altura = "" ∨ f.idade = "" ∨ f.sexo = "" then
    some (alertar "Erro" "Por favor, preencha todos os campos obrigatórios!" st)
  else
    let pesoNum := parseFloat f.peso
    let alturaNum := parseFloat f.altura
    if JSNum.isNaN pesoNum then some (alertar "Erro" "Peso inválido!" st)
    else if JSNum.isNaN alturaNum then some (alertar "Erro" "Altura inválida!" st)
    else
      let imcData := calcularIMC pesoNum alturaNum
      let novo := novoPaciente (JSNum.toString aleatorio) f pesoNum alturaNum imcData
      match espalhar st.pacientes with
      | none => none
      | some xs =>
        let novosPacientes := JSVal.arr (xs ++ [novo])
        let st1 := { st with pacientes := novosPacientes }
        let st2 := salvarPacientes escritaFalha novosPacientes st1
        some { st2 with imcResultado := some imcData }

/-- The test `p.id !== id` of `excluirPaciente` for a string `id`: nothing where reading
`p.id` throws a `TypeError` (`p` is `null`); a missing `id` is `undefined`, which differs
from every string, as does every value that is not a string. -/
def idDifere (id : String) : JSVal → Option Bool
  | .null => none
  | .obj ps =>
    match ps.lookup "id" with
    | some (.str s) => some (decide (s ≠ id))
    | _ => some true
  | _ => some true

/-- The call `pacientes.filter(p => p.id !== id)` on the elements of an array. -/
def filtrar (id : String) : List JSVal → Option (List JSVal)
  | [] => some []
  | p :: ps =>
    match idDifere id p with
    | none => none
    | some manter =>
      match filtrar id ps with
      | none => none
      | some r => some (if manter then p :: r else r)

/-- The function `excluirPaciente` (lines 128 to 132) for a string `id`. The result is
nothing where JavaScript throws a `TypeError`: `pacientes` is not an array, or one of its
elements is `null`. -/
def excluirPaciente (id : String) (escritaFalha : Bool) (st : AppState) : Option AppState :=
  match st.pacientes with
  | .arr xs =>
    match filtrar id xs with
    | none => none
    | some novosPacientes =>
      let st1 := { st with pacientes := .arr novosPacientes }
      some (salvarPacientes escritaFalha (.arr novosPacientes) st1)
  | _ => none

/-- The function `limparFormulario` (lines 148 to 160). -/
def limparFormulario (st : AppState) : AppState :=
  { st with
    formData :=
      { nome := "", peso := "", altura := "", idade := "", sexo := "masculino",
        telefone := "", email := "", endereco := "" }
    imcResultado := none }

/-! ## Vocabulary for the texts of numbers -/

/-- The text after a number: it does not continue the number. -/
def fimNumero (r : List Char) : Prop :=
  ∀ c t, r = c :: t → isDigit c = false ∧ c ≠ '.' ∧ c ≠ 'e' ∧ c ≠ 'E'

/-- The text of a fraction: nothing, or a point and digits. -/
def fracText (fp : List Char) : List Char := if fp = [] then [] else '.' :: fp

/-- The text of an exponent: nothing, or `e`, a sign and digits. -/
def expText : Option (Bool × List Char) → List Char
  | none => []
  | some (neg, ed) => 'e' :: (if neg then '-' else '+') :: ed

/-- The value of an exponent text. -/
def expVal : Option (Bool × List Char) → Int
  | none => 0
  | some (neg, ed) => if neg then - (digitsVal 0 ed : Int) else (digitsVal 0 ed : Int)


/-! ## Values that survive serialisation -/

/-- Keys of an object in the order and shape that `JSON.parse` reproduces: no key twice and
no array-index key (such keys are enumerated first, whatever the order of insertion). -/
def chavesSimples (ks : List String) : Bool :=
  decide (ks.Nodup) && ks.all fun k => decide (JSON.arrayIndex k = none)

mutual
/-- A value that `JSON.stringify` writes without loss: every number in it is a finite
binary64 value, and the keys of every object are distinct and none is an array index. -/
def JSVal.estavel : JSVal → Bool
  | .null => true
  | .bool _ => true
  | .num (.fin q) => decide (round64 q = .fin q)
  | .num _ => false
  | .str _ => true
  | .arr xs => JSVal.estavelLista xs
  | .obj ps => chavesSimples (ps.map fun p => p.1) && JSVal.estavelProps ps
/-- Every element is written without loss. -/
def JSVal.estavelLista : List JSVal → Bool
  | [] => true
  | x :: xs => JSVal.estavel x && JSVal.estavelLista xs
/-- Every property value is written without loss. -/
def JSVal.estavelProps : List (String × JSVal) → Bool
  | [] => true
  | (_, x) :: ps => JSVal.estavel x && JSVal.estavelProps ps
end

mutual
/-- The depth of recursion that `JSON.readValue` needs for the text of a value. -/
def JSVal.custo : JSVal → Nat
  | .arr xs => JSVal.custoLista xs + 1
  | .obj ps => JSVal.custoProps ps + 1
  | _ => 1
/-- The depth of recursion that `JSON.readElems` needs for the texts of the elements. -/
def JSVal.custoLista : List JSVal → Nat
  | [] => 0
  | x :: xs => max (JSVal.custo x) (JSVal.custoLista xs) + 1
/-- The depth of recursion that `JSON.readMembers` needs for the texts of the members. -/
def JSVal.custoProps : List (String × JSVal) → Nat
  | [] => 0
  | (_, x) :: ps => max (JSVal.custo x) (JSVal.custoProps ps) + 1
end

/-- A finite binary64 value: a finite JavaScript number. -/
def JSNum.finito64 : JSNum → Bool
  | .fin q => decide (round64 q = .fin q)
  | _ => false

/-! ## Example states -/

/-- A store that holds one patient, with an empty name in the form. -/
def estadoSemNome : AppState :=
  { formData :=
      { nome := "", peso := "70", altura := "1.75", idade := "30", sexo := "feminino",
        telefone := "", email := "", endereco := "" }
    pacientes := .arr [.obj [("id", .str "0.25"), ("nome", .str "Ana")]]
    imcResultado := none
    armazenado := some "[\x7b\"id\":\"0.25\",\"nome\":\"Ana\"\x7d]"
    alertas := [] }

/-- A store that holds one patient, with a complete form for a second one. -/
def estadoComFormulario : AppState :=
  { formData :=
      { nome := "Bia", peso := "70", altura := "1.75", idade := "30", sexo := "feminino",
        telefone := "555", email := "bia@example.org", endereco := "Rua A" }
    pacientes := .arr [.obj [("id", .str "0.25"), ("nome", .str "Ana")]]
    imcResultado := none
    armazenado := none
    alertas := [] }

/-- A store whose only patient carries the id `0.5`, with a complete form. -/
def estadoIdRepetido : AppState :=
  { formData :=
      { nome := "Bia", peso := "70", altura := "1.75", idade := "30", sexo := "feminino",
        telefone := "", email := "", endereco := "" }
    pacientes := .arr [.obj [("id", .str "0.5"), ("nome", .str "Ana")]]
    imcResultado := none
    armazenado := none
    alertas := [] }

/-- The empty store with a complete form whose weight is a run of four hundred nines. -/
def estadoPesoEnorme : AppState :=
  { formData :=
      { nome := "Ana", peso := String.mk (List.replicate 400 '9'), altura := "1.70",
        idade := "30", sexo := "feminino", telefone := "", email := "", endereco := "" }
    pacientes := .arr []
    imcResultado := none
    armazenado := none
    alertas := [] }

/-! ## Literals and comparisons -/

theorem lit_18_5 : JSNum.lit (37 / 2) = .fin (37 / 2) := by decide!

theorem lit_24_9 : JSNum.lit (249 / 10) = .fin d249 := by decide!

theorem lit_25 : JSNum.lit 25 = .fin 25 := by decide!

theorem lit_29_9 : JSNum.lit (299 / 10) = .fin d299 := by decide!

theorem lt_fin_iff (v : JSNum) (t : ℚ) : JSNum.lt v (.fin t) = true ↔ v.below t := by
  cases v <;> simp [JSNum.lt, JSNum.below]

theorem ge_fin_iff (v : JSNum) (t : ℚ) : JSNum.ge v (.fin t) = true ↔ v.atLeast t := by
  cases v <;> simp [JSNum.ge, JSNum.lt, JSNum.atLeast]

/-- The classification of `calcularIMC` as a function of the quotient, with the literals
replaced by their binary64 values. -/
theorem classificacao_eq (w h : JSNum) :
    (calcularIMC w h).classificacao =
      if JSNum.lt (JSNum.div w (JSNum.mul h h)) (.fin (37 / 2)) then "Abaixo do peso"
      else if JSNum.ge (JSNum.div w (JSNum.mul h h)) (.fin (37 / 2)) &&
          JSNum.lt (JSNum.div w (JSNum.mul h h)) (.fin d249) then "Peso normal"
      else if JSNum.ge (JSNum.div w (JSNum.mul h h)) (.fin 25) &&
          JSNum.lt (JSNum.div w (JSNum.mul h h)) (.fin d299) then "Sobrepeso"
      else "Obesidade" := by
  simp only [calcularIMC, lit_18_5, lit_24_9, lit_25, lit_29_9]

/-- The classification of a finite quotient. -/
theorem classificacao_fin (w h : JSNum) (q : ℚ)
    (hv : JSNum.div w (JSNum.mul h h) = .fin q) :
    (calcularIMC w h).classificacao =
      if q < 37 / 2 then "Abaixo do peso"
      else if q < d249 then "Peso normal"
      else if 25 ≤ q ∧ q < d299 then "Sobrepeso"
      else "Obesidade" := by
  rw [classificacao_eq, hv]
  simp only [JSNum.lt, JSNum.ge]
  by_cases h1 : q < 37 / 2
  · simp [h1]
  · by_cases h2 : q < d249
    · simp [h1, h2]
    · by_cases h3 : (25 : ℚ) ≤ q
      · have h3' : ¬ q < 25 := not_lt.mpr h3
        by_cases h4 : q < d299 <;> simp [h1, h2, h3, h3', h4]
      · have h3' : q < 25 := not_le.mp h3
        simp [h1, h2, h3, h3']

/-- Claim C1 (the code departs from the claim). Every quotient in the interval from 24.9 up
to, but not including, 25 is classified `Obesidade` by `calcularIMC`: the interval is
covered by none of the three tests and falls into the final `else`, whereas the claim
expects `Sobrepeso` there. -/
theorem calcularIMC_gap_obesidade (w h : JSNum)
    (hlo : (JSNum.div w (JSNum.mul h h)).atLeast d249)
    (hhi : (JSNum.div w (JSNum.mul h h)).below 25) :
    (calcularIMC w h).classificacao = "Obesidade" ∧
      (calcularIMC w h).classificacao ≠ "Sobrepeso" := by
  have key : (calcularIMC w h).classificacao = "Obesidade" := by
    cases hv : JSNum.div w (JSNum.mul h h) with
    | nan => rw [hv] at hlo; exact absurd hlo (by simp [JSNum.atLeast])
    | pinf => rw [hv] at hhi; exact absurd hhi (by simp [JSNum.below])
    | ninf => rw [hv] at hlo; exact absurd hlo (by simp [JSNum.atLeast])
    | fin q =>
      rw [hv] at hlo hhi
      simp only [JSNum.atLeast, JSNum.below] at hlo hhi
      rw [classificacao_fin w h q hv]
      have h1 : ¬ q < 37 / 2 := by
        have : (37 / 2 : ℚ) < d249 := by norm_num [d249]
        linarith
      have h2 : ¬ q < d249 := not_lt.mpr hlo
      have h3 : ¬ (25 : ℚ) ≤ q := not_le.mpr hhi
      simp [h1, h2, h3]
  exact ⟨key, by rw [key]; decide⟩

/-- Witness for C1: weight 24.95 and height 1 give the value `24.95` and `Obesidade`. -/
theorem calcularIMC_gap_obesidade_witness :
    ((JSNum.div (JSNum.lit (2495 / 100)) (JSNum.mul (JSNum.lit 1) (JSNum.lit 1))).atLeast d249 ∧
      (JSNum.div (JSNum.lit (2495 / 100)) (JSNum.mul (JSNum.lit 1) (JSNum.lit 1))).below 25) ∧
    calcularIMC (JSNum.lit (2495 / 100)) (JSNum.lit 1) =
      { valor := "24.95", classificacao := "Obesidade" } ∧
    (calcularIMC (JSNum.lit (2495 / 100)) (JSNum.lit 1)).classificacao ≠ "Sobrepeso" :=
  ⟨by decide!, by decide!,
    (calcularIMC_gap_obesidade (JSNum.lit (2495 / 100)) (JSNum.lit 1)
      (by decide!) (by decide!)).2⟩

/-- Claim C2 (counterexample). The quotient `NaN` lies outside the interval and is not at
least 29.9, yet it is classified `Obesidade`: weight 0 with height `1e-200`, whose square
underflows to zero, and weight and height both `Infinity`. -/
theorem imc_nan_classified_obesidade :
    JSNum.lit (1 / 10 ^ 200) ≠ .fin 0 ∧
    JSNum.div (JSNum.lit 0) (JSNum.mul (JSNum.lit (1 / 10 ^ 200)) (JSNum.lit (1 / 10 ^ 200)))
      = .nan ∧
    calcularIMC (JSNum.lit 0) (JSNum.lit (1 / 10 ^ 200)) =
      { valor := "NaN", classificacao := "Obesidade" } ∧
    JSNum.div .pinf (JSNum.mul .pinf .pinf) = .nan ∧
    calcularIMC .pinf .pinf = { valor := "NaN", classificacao := "Obesidade" } ∧
    ¬ (JSNum.nan).atLeast d299 := by
  decide!

/-- Claim C2 (amended). For every weight and height whose quotient `v` lies outside the
interval from 24.9 up to 25, `calcularIMC` returns `Abaixo do peso` exactly when
`v < 18.5`, `Peso normal` exactly when `18.5 ≤ v < 24.9`, `Sobrepeso` exactly when
`25 ≤ v < 29.9`, and `Obesidade` exactly when `v ≥ 29.9` or `v` is `NaN`; one of the four
classes is always returned. The thresholds 24.9 and 29.9 are the binary64 values of the
literals. -/
theorem calcularIMC_bands (w h : JSNum)
    (hgap : ¬ ((JSNum.div w (JSNum.mul h h)).atLeast d249 ∧
      (JSNum.div w (JSNum.mul h h)).below 25)) :
    ((calcularIMC w h).classificacao = "Abaixo do peso" ↔
        (JSNum.div w (JSNum.mul h h)).below (37 / 2)) ∧
    ((calcularIMC w h).classificacao = "Peso normal" ↔
        (JSNum.div w (JSNum.mul h h)).atLeast (37 / 2) ∧
        (JSNum.div w (JSNum.mul h h)).below d249) ∧
    ((calcularIMC w h).classificacao = "Sobrepeso" ↔
        (JSNum.div w (JSNum.mul h h)).atLeast 25 ∧
        (JSNum.div w (JSNum.mul h h)).below d299) ∧
    ((calcularIMC w h).classificacao = "Obesidade" ↔
        (JSNum.div w (JSNum.mul h h)).atLeast d299 ∨
        JSNum.div w (JSNum.mul h h) = .nan) ∧
    ((calcularIMC w h).classificacao = "Abaixo do peso" ∨
      (calcularIMC w h).classificacao = "Peso normal" ∨
      (calcularIMC w h).classificacao = "Sobrepeso" ∨
      (calcularIMC w h).classificacao = "Obesidade") := by
  cases hv : JSNum.div w (JSNum.mul h h) with
  | nan => rw [classificacao_eq, hv]; simp [JSNum.lt, JSNum.ge, JSNum.below, JSNum.atLeast]
  | pinf => rw [classificacao_eq, hv]; simp [JSNum.lt, JSNum.ge, JSNum.below, JSNum.atLeast]
  | ninf => rw [classificacao_eq, hv]; simp [JSNum.lt, JSNum.ge, JSNum.below, JSNum.atLeast]
  | fin q =>
    rw [hv] at hgap
    simp only [JSNum.below, JSNum.atLeast, not_and, not_lt] at hgap
    rw [classificacao_fin w h q hv]
    simp only [JSNum.below, JSNum.atLeast]
    have c1 : (37 / 2 : ℚ) < d249 := by norm_num [d249]
    have c2 : d249 < 25 := by norm_num [d249]
    have c3 : (25 : ℚ) < d299 := by norm_num [d299]
    by_cases h1 : q < 37 / 2
    · have a1 : ¬ (37 / 2 : ℚ) ≤ q := not_le.mpr h1
      have a2 : ¬ (25 : ℚ) ≤ q := by intro; linarith
      have a3 : ¬ d299 ≤ q := by intro; linarith
      simp [h1, a1, a2, a3]
    · have h1' : (37 / 2 : ℚ) ≤ q := not_lt.mp h1
      by_cases h2 : q < d249
      · have a2 : ¬ (25 : ℚ) ≤ q := by intro; linarith
        have a3 : ¬ d299 ≤ q := by intro; linarith
        simp [h1, h1', h2, a2, a3]
      · have h3 : (25 : ℚ) ≤ q := hgap (not_lt.mp h2)
        by_cases h4 : q < d299
        · have a3 : ¬ d299 ≤ q := not_le.mpr h4
          simp [h1, h1', h2, h3, h4, a3]
        · have a3 : d299 ≤ q := not_lt.mp h4
          simp [h1, h1', h2, h3, h4, a3]

/-- Witness for C2: the quotient 18.5 is `Peso normal` and the quotient 29.95 is
`Obesidade`. -/
theorem calcularIMC_bands_witness :
    (¬ ((JSNum.div (JSNum.lit (37 / 2)) (JSNum.mul (JSNum.lit 1) (JSNum.lit 1))).atLeast d249 ∧
      (JSNum.div (JSNum.lit (37 / 2)) (JSNum.mul (JSNum.lit 1) (JSNum.lit 1))).below 25)) ∧
    (calcularIMC (JSNum.lit (37 / 2)) (JSNum.lit 1)).classificacao = "Peso normal" ∧
    (calcularIMC (JSNum.lit (2995 / 100)) (JSNum.lit 1)).classificacao = "Obesidade" :=
  ⟨by decide!,
    (calcularIMC_bands (JSNum.lit (37 / 2)) (JSNum.lit 1) (by decide!)).2.1.mpr (by decide!),
    (calcularIMC_bands (JSNum.lit (2995 / 100)) (JSNum.lit 1) (by decide!)).2.2.2.1.mpr
      (by decide!)⟩

/-! ## Decimal digits and the fixed notation -/

theorem natDigitsFuel_append (f n : Nat) (acc : List Char) :
    natDigitsFuel f n acc = natDigitsFuel f n [] ++ acc := by
  induction f generalizing n acc with
  | zero => simp [natDigitsFuel]
  | succ f ih =>
    simp only [natDigitsFuel]
    split
    · simp
    · rw [ih (n / 10) (digitChar (n % 10) :: acc), ih (n / 10) [digitChar (n % 10)]]
      simp

theorem natDigitsFuel_fuel (f g n : Nat) (hf : n < f) (hg : n < g) (acc : List Char) :
    natDigitsFuel f n acc = natDigitsFuel g n acc := by
  induction f generalizing g n acc with
  | zero => omega
  | succ f ih =>
    cases g with
    | zero => omega
    | succ g =>
      simp only [natDigitsFuel]
      split
      · rfl
      · have hlt : n / 10 < n := Nat.div_lt_self (by omega) (by omega)
        exact ih g (n / 10) (by omega) (by omega) _

theorem natDigits_lt (n : Nat) (h : n < 10) : natDigits n = [digitChar n] := by
  simp [natDigits, natDigitsFuel, h]

theorem natDigits_step (n : Nat) (h : 10 ≤ n) :
    natDigits n = natDigits (n / 10) ++ [digitChar (n % 10)] := by
  have hlt : n / 10 < n := Nat.div_lt_self (by omega) (by omega)
  have h10 : ¬ n < 10 := by omega
  unfold natDigits
  rw [show natDigitsFuel (n + 1) n [] = natDigitsFuel n (n / 10) [digitChar (n % 10)] by
    simp [natDigitsFuel, h10]]
  rw [natDigitsFuel_append, natDigitsFuel_fuel n (n / 10 + 1) (n / 10) hlt (by omega)]

theorem natDigits_length_pos (n : Nat) : 0 < (natDigits n).length := by
  by_cases h : n < 10
  · simp [natDigits_lt n h]
  · rw [natDigits_step n (by omega)]; simp

/-- The fixed notation of `toFixed(2)` is the integer part, a point and two digits. -/
theorem fixedChars_eq (n : Nat) : JSNum.fixedChars n = duasCasas n := by
  unfold JSNum.fixedChars duasCasas
  by_cases h1 : n < 10
  · have e0 : n / 100 = 0 := by omega
    have e1 : n / 10 % 10 = 0 := by omega
    have e2 : n % 10 = n := by omega
    rw [natDigits_lt n h1, e0, e1, e2, natDigits_lt 0 (by omega)]
    simp [digitChar]
  · by_cases h2 : n < 100
    · have e0 : n / 100 = 0 := by omega
      have e1 : n / 10 % 10 = n / 10 := by omega
      rw [natDigits_step n (by omega), natDigits_lt (n / 10) (by omega), e0, e1,
        natDigits_lt 0 (by omega)]
      simp [digitChar]
    · have e0 : n / 10 / 10 = n / 100 := by omega
      have hp := natDigits_length_pos (n / 100)
      rw [natDigits_step n (by omega), natDigits_step (n / 10) (by omega), e0]
      simp only [List.append_assoc, List.singleton_append]
      have hl : (natDigits (n / 100) ++ [digitChar (n / 10 % 10), digitChar (n % 10)]).length
          = (natDigits (n / 100)).length + 2 := by simp
      have hlen : ¬ (natDigits (n / 100)).length + 2 ≤ 2 := by omega
      rw [if_neg (by rw [hl]; exact hlen)]
      simp only [hl, Nat.add_sub_cancel]
      rw [List.take_left' rfl, List.drop_left' rfl]

/-- The integer chosen by `toFixed(2)` is the nearest number of hundredths, the larger one
on a tie. -/
theorem fixedInt_spec (x : ℚ) (hx : 0 ≤ x) :
    ((JSNum.fixedInt x : Nat) : ℚ) ≤ x * 100 + 1 / 2 ∧
      x * 100 + 1 / 2 < (JSNum.fixedInt x : Nat) + 1 := by
  unfold JSNum.fixedInt
  have h0 : (0 : ℤ) ≤ Rat.floor (x * 100 + 1 / 2) := by
    rw [Rat.le_floor]
    have : (0:ℚ) ≤ x * 100 := by positivity
    push_cast
    linarith
  have hc : (((Rat.floor (x * 100 + 1 / 2)).toNat : Nat) : ℚ)
      = ((Rat.floor (x * 100 + 1 / 2) : ℤ) : ℚ) := by
    have := Int.toNat_of_nonneg h0
    exact_mod_cast congrArg (fun z : ℤ => (z : ℚ)) this
  rw [hc]
  constructor
  · exact Rat.le_floor.mp le_rfl
  · exact Int.lt_floor_add_one (x * 100 + 1 / 2)

/-- The text of `x.toFixed(2)` for a finite `x` below `10^21` in magnitude. -/
theorem toFixed2_fin (q : ℚ) (hq : |q| < 10 ^ 21) :
    JSNum.toFixed2 (.fin q) =
      String.mk ((if q < 0 then ['-'] else []) ++ duasCasas (JSNum.fixedInt |q|)) := by
  have hp : pow10 21 = 10 ^ 21 := by decide!
  unfold JSNum.toFixed2 JSNum.toFixed2Chars
  simp only
  have habs : (if q < 0 then -q else q) = |q| := by
    split
    · rw [abs_of_neg (by assumption)]
    · rw [abs_of_nonneg (by linarith)]
  rw [habs, hp, if_neg (not_le.mpr hq), fixedChars_eq]

/-! ## Sign of rounded results -/

theorem pow2_pos (e : Int) : 0 < pow2 e := by
  unfold pow2
  split
  · positivity
  · rw [Rat.mkRat_eq_div]
    positivity

theorem roundHalfEven_nonneg (x : ℚ) (hx : 0 ≤ x) : 0 ≤ roundHalfEven x := by
  have hf : (0 : ℤ) ≤ Rat.floor x := by
    rw [Rat.le_floor]
    exact_mod_cast hx
  unfold roundHalfEven
  simp only
  split_ifs <;> omega

theorem round64_nonneg (x q : ℚ) (hx : 0 ≤ x) (h : round64 x = .fin q) : 0 ≤ q := by
  have hu := pow2_pos (max (ilog2 x) (-1022) - 52)
  have hr := roundHalfEven_nonneg (x / pow2 (max (ilog2 x) (-1022) - 52))
    (div_nonneg hx hu.le)
  have hr' : (0 : ℚ) ≤ (roundHalfEven (x / pow2 (max (ilog2 x) (-1022) - 52)) : ℚ) := by
    exact_mod_cast hr
  unfold round64 at h
  simp only at h
  split_ifs at h
  · injection h with h; rw [← h]
  · injection h with h
    rw [← h]
    positivity

/-- The quotient computed by `calcularIMC` from a positive weight and a positive height is
never negative. -/
theorem imc_nonneg (a b q : ℚ) (ha : 0 < a) (hb : 0 < b)
    (hv : JSNum.div (.fin a) (JSNum.mul (.fin b) (.fin b)) = .fin q) : 0 ≤ q := by
  simp only [JSNum.mul] at hv
  cases hm : round64 (b * b) with
  | nan => rw [hm] at hv; simp [JSNum.div] at hv
  | pinf => rw [hm] at hv; simp [JSNum.div] at hv; rw [← hv]
  | ninf => rw [hm] at hv; simp [JSNum.div] at hv; rw [← hv]
  | fin c =>
    rw [hm] at hv
    have hc : 0 ≤ c := round64_nonneg (b * b) c (by positivity) hm
    simp only [JSNum.div] at hv
    split_ifs at hv with hc0
    · simp [JSNum.sign, JSNum.ofSign, ha] at hv
    · exact round64_nonneg (a / c) q (div_nonneg ha.le hc) hv

/-! ## The value of `calcularIMC` and of `calcularPesoIdeal` -/

/-- Claim C3 (counterexample). Positive weight `1e21` with height 1 gives the value `1e+21`,
and positive weight 1 with the positive height `1e-200`, whose square underflows to zero,
gives the value `Infinity`: neither has two digits after a decimal point. -/
theorem imc_valor_exponent_notation :
    JSNum.lit (10 ^ 21) = .fin (10 ^ 21) ∧ JSNum.lit 1 = .fin 1 ∧
    (calcularIMC (JSNum.lit (10 ^ 21)) (JSNum.lit 1)).valor = "1e+21" ∧
    JSNum.lit (1 / 10 ^ 200) ≠ .fin 0 ∧
    (calcularIMC (JSNum.lit 1) (JSNum.lit (1 / 10 ^ 200))).valor = "Infinity" := by
  decide!

/-- Claim C3 (amended). For all positive weight and height whose computed quotient `q` is
finite and below `10^21`, the value returned by `calcularIMC` is `q` rounded to the nearest
hundredth (upward on a tie), written as the integer part, a point and exactly two
digits. -/
theorem imc_valor_two_decimals (a b q : ℚ) (ha : 0 < a) (hb : 0 < b)
    (hv : JSNum.div (.fin a) (JSNum.mul (.fin b) (.fin b)) = .fin q) (hq : q < 10 ^ 21) :
    (calcularIMC (.fin a) (.fin b)).valor = String.mk (duasCasas (JSNum.fixedInt q)) ∧
      ((JSNum.fixedInt q : Nat) : ℚ) ≤ q * 100 + 1 / 2 ∧
      q * 100 + 1 / 2 < (JSNum.fixedInt q : Nat) + 1 := by
  have h0 : 0 ≤ q := imc_nonneg a b q ha hb hv
  refine ⟨?_, fixedInt_spec q h0⟩
  have habs : |q| = q := abs_of_nonneg h0
  have hfix := toFixed2_fin q (by rw [habs]; exact hq)
  rw [habs, if_neg (not_lt.mpr h0)] at hfix
  simp only [calcularIMC, hv, hfix, List.nil_append]

/-- Witness for C3: weight 70 and height 1.75 give the value `22.86`. -/
theorem imc_valor_two_decimals_witness :
    ((0 : ℚ) < 70 ∧ (0 : ℚ) < 7 / 4 ∧
      JSNum.div (.fin 70) (JSNum.mul (.fin (7 / 4)) (.fin (7 / 4)))
        = .fin (6433713753386423 / 281474976710656) ∧
      (6433713753386423 / 281474976710656 : ℚ) < 10 ^ 21) ∧
    (calcularIMC (.fin 70) (.fin (7 / 4))).valor = "22.86" ∧
    ((calcularIMC (.fin 70) (.fin (7 / 4))).valor
        = String.mk (duasCasas (JSNum.fixedInt (6433713753386423 / 281474976710656))) ∧
      ((JSNum.fixedInt (6433713753386423 / 281474976710656) : Nat) : ℚ)
        ≤ 6433713753386423 / 281474976710656 * 100 + 1 / 2 ∧
      (6433713753386423 / 281474976710656 : ℚ) * 100 + 1 / 2
        < (JSNum.fixedInt (6433713753386423 / 281474976710656) : Nat) + 1) :=
  ⟨by decide!, by decide!,
    imc_valor_two_decimals 70 (7 / 4) (6433713753386423 / 281474976710656)
      (by norm_num) (by norm_num) (by decide!) (by norm_num)⟩

/-- Claim C4 (counterexample). The height `1e22` gives the ideal weight `7.5e+23` for
`masculino`, and the height `Infinity` gives `NaN`: neither has two digits after a decimal
point. -/
theorem pesoIdeal_exponent_notation :
    calcularPesoIdeal (JSNum.lit (10 ^ 22)) "masculino" = "7.5e+23" ∧
    calcularPesoIdeal (JSNum.lit (10 ^ 22)) "feminino" = "5e+23" ∧
    calcularPesoIdeal .pinf "masculino" = "NaN" := by
  decide!

/-- Claim C4 (amended). With `alturaCm = altura * 100`, `calcularPesoIdeal` computes
`(alturaCm - 100) - ((alturaCm - 150) / d)` in binary64 arithmetic, where `d` is 4 for
`masculino` and 2 otherwise (so for `feminino`); whenever that result `q` is finite and
below `10^21` in magnitude it is returned rounded to the nearest hundredth (away from zero
on a tie) as a sign, the integer part, a point and exactly two digits. -/
theorem calcularPesoIdeal_valor (altura : JSNum) (sexo : String) (q : ℚ)
    (hv : JSNum.sub (JSNum.sub (JSNum.mul altura (JSNum.lit 100)) (JSNum.lit 100))
        (JSNum.div (JSNum.sub (JSNum.mul altura (JSNum.lit 100)) (JSNum.lit 150))
          (if sexo = "masculino" then JSNum.lit 4 else JSNum.lit 2)) = .fin q)
    (hq : |q| < 10 ^ 21) :
    calcularPesoIdeal altura sexo =
        String.mk ((if q < 0 then ['-'] else []) ++ duasCasas (JSNum.fixedInt |q|)) ∧
      ((JSNum.fixedInt |q| : Nat) : ℚ) ≤ |q| * 100 + 1 / 2 ∧
      |q| * 100 + 1 / 2 < (JSNum.fixedInt |q| : Nat) + 1 := by
  refine ⟨?_, fixedInt_spec |q| (abs_nonneg q)⟩
  rw [← toFixed2_fin q hq, ← hv]
  unfold calcularPesoIdeal
  by_cases hs : sexo = "masculino"
  · simp only [hs, if_true]
  · simp only [hs, if_false]

/-- Witness for C4: the height 1.70 gives `65.00` for `masculino` and `60.00` for
`feminino`. -/
theorem calcularPesoIdeal_valor_witness :
    (JSNum.sub (JSNum.sub (JSNum.mul (JSNum.lit (17 / 10)) (JSNum.lit 100)) (JSNum.lit 100))
        (JSNum.div (JSNum.sub (JSNum.mul (JSNum.lit (17 / 10)) (JSNum.lit 100)) (JSNum.lit 150))
          (if "masculino" = "masculino" then JSNum.lit 4 else JSNum.lit 2)) = .fin 65 ∧
      |(65 : ℚ)| < 10 ^ 21) ∧
    calcularPesoIdeal (JSNum.lit (17 / 10)) "masculino" = "65.00" ∧
    calcularPesoIdeal (JSNum.lit (17 / 10)) "feminino" = "60.00" ∧
    calcularPesoIdeal (JSNum.lit (17 / 10)) "masculino" =
      String.mk ((if (65 : ℚ) < 0 then ['-'] else []) ++ duasCasas (JSNum.fixedInt |(65 : ℚ)|)) :=
  ⟨by decide!, by decide!, by decide!,
    (calcularPesoIdeal_valor (JSNum.lit (17 / 10)) "masculino" 65 (by decide!)
      (by decide!)).1⟩

/-! ## Classification against the returned value -/

/-- Claim C10 (counterexample). The quotient 18.496 is returned as the value `18.50` with
the classification `Abaixo do peso`, the quotient 29.896 as the value `29.90` with the
classification `Sobrepeso`, and the quotient 24.896 as the value `24.90` with the
classification `Peso normal`; the bands of 18.50, 29.90 and 24.90 in the table of the
specification are normal, obese and overweight. None of the three quotients lies in the
interval from 24.9 to 25. -/
theorem imc_band_differs_at_boundary :
    calcularIMC (JSNum.lit (18496 / 1000)) (JSNum.lit 1) =
      { valor := "18.50", classificacao := "Abaixo do peso" } ∧
    faixa (1850 / 100) = "Peso normal" ∧
    calcularIMC (JSNum.lit (29896 / 1000)) (JSNum.lit 1) =
      { valor := "29.90", classificacao := "Sobrepeso" } ∧
    faixa (2990 / 100) = "Obesidade" ∧
    calcularIMC (JSNum.lit (24896 / 1000)) (JSNum.lit 1) =
      { valor := "24.90", classificacao := "Peso normal" } ∧
    faixa (2490 / 100) = "Sobrepeso" := by
  decide!

theorem valorDecimal_nonneg_bounds (q : ℚ) (h0 : 0 ≤ q) :
    valorDecimal q = (JSNum.fixedInt q : ℚ) / 100 ∧
      ((JSNum.fixedInt q : Nat) : ℚ) ≤ q * 100 + 1 / 2 ∧
      q * 100 + 1 / 2 < (JSNum.fixedInt q : Nat) + 1 := by
  refine ⟨?_, fixedInt_spec q h0⟩
  unfold valorDecimal
  rw [if_neg (not_lt.mpr h0)]

/-- Claim C10 (amended). For every weight and height whose quotient `q` is finite, below
`10^21` in magnitude and outside the interval from 24.9 up to 25 (where `calcularIMC`
departs from the table), the value returned is the text of `q` rounded to hundredths, and
the classification returned is the band, in the table of the specification, of that
two-decimal value whenever the value is none of the boundary values 18.50, 24.90 and
29.90. -/
theorem imc_band_of_returned_valor (w h : JSNum) (q : ℚ)
    (hv : JSNum.div w (JSNum.mul h h) = .fin q) (hq : |q| < 10 ^ 21)
    (hgap : ¬ (d249 ≤ q ∧ q < 25))
    (hb1 : valorDecimal q ≠ 37 / 2) (hb2 : valorDecimal q ≠ 249 / 10)
    (hb3 : valorDecimal q ≠ 299 / 10) :
    (calcularIMC w h).valor =
        String.mk ((if q < 0 then ['-'] else []) ++ duasCasas (JSNum.fixedInt |q|)) ∧
      (calcularIMC w h).classificacao = faixa (valorDecimal q) := by
  constructor
  · rw [← toFixed2_fin q hq, ← hv]
    rfl
  rw [classificacao_fin w h q hv]
  by_cases hneg : q < 0
  · have hval : valorDecimal q ≤ 0 := by
      unfold valorDecimal
      rw [if_pos hneg]
      have : (0 : ℚ) ≤ (JSNum.fixedInt (-q) : ℚ) := by positivity
      linarith
    have h1 : q < 37 / 2 := by linarith
    have h2 : valorDecimal q < 37 / 2 := by linarith
    simp [faixa, h1, h2]
  · have h0 : 0 ≤ q := not_lt.mp hneg
    obtain ⟨hval, hlo, hhi⟩ := valorDecimal_nonneg_bounds q h0
    rw [hval] at hb1 hb2 hb3 ⊢
    generalize JSNum.fixedInt q = n at hb1 hb2 hb3 hlo hhi ⊢
    have n1 : n ≠ 1850 := by rintro rfl; exact hb1 (by norm_num)
    have n2 : n ≠ 2490 := by rintro rfl; exact hb2 (by norm_num)
    have n4 : n ≠ 2990 := by rintro rfl; exact hb3 (by norm_num)
    have c1 : d249 = 3504363460047667 / 140737488355328 := rfl
    have c2 : d299 = 4208050901824307 / 140737488355328 := rfl
    unfold faixa
    rcases Nat.lt_or_ge n 1850 with k1 | k1
    · have : (n : ℚ) + 1 ≤ 1850 := by exact_mod_cast k1
      have a1 : q < 37 / 2 := by linarith
      have a2 : (n : ℚ) / 100 < 37 / 2 := by linarith
      simp [a1, a2]
    have k1' : 1851 ≤ n := by omega
    have : (1851 : ℚ) ≤ n := by exact_mod_cast k1'
    have a1 : ¬ q < 37 / 2 := by intro; linarith
    have a2 : ¬ (n : ℚ) / 100 < 37 / 2 := by intro; linarith
    rcases Nat.lt_or_ge n 2490 with k2 | k2
    · have : (n : ℚ) + 1 ≤ 2490 := by exact_mod_cast k2
      have b1 : q < d249 := by rw [c1]; linarith
      have b2 : (n : ℚ) / 100 < 249 / 10 := by linarith
      simp [a1, a2, b1, b2]
    have k2' : 2491 ≤ n := by omega
    have : (2491 : ℚ) ≤ n := by exact_mod_cast k2'
    have b0 : d249 ≤ q := by rw [c1]; linarith
    have b1 : ¬ q < d249 := not_lt.mpr b0
    have b2 : ¬ (n : ℚ) / 100 < 249 / 10 := by intro; linarith
    have d1 : (25 : ℚ) ≤ q := by
      by_contra hd
      exact hgap ⟨b0, not_le.mp hd⟩
    rcases Nat.lt_or_ge n 2990 with k4 | k4
    · have : (n : ℚ) + 1 ≤ 2990 := by exact_mod_cast k4
      have e1 : q < d299 := by rw [c2]; linarith
      have e2 : (n : ℚ) / 100 < 299 / 10 := by linarith
      simp [a1, a2, b1, b2, d1, e1, e2]
    have k4' : 2991 ≤ n := by omega
    have : (2991 : ℚ) ≤ n := by exact_mod_cast k4'
    have e1 : ¬ q < d299 := by rw [c2]; intro; linarith
    have e2 : ¬ (n : ℚ) / 100 < 299 / 10 := by intro; linarith
    simp [a1, a2, b1, b2, d1, e1, e2]

/-- Witness for C10: weight 70 and height 1.75 give the value `22.86`, whose band
`Peso normal` is the classification returned; weight 25 and height 1 give the value
`25.00`, classified `Sobrepeso` like its band. -/
theorem imc_band_of_returned_valor_witness :
    (JSNum.div (JSNum.lit 70) (JSNum.mul (JSNum.lit (7 / 4)) (JSNum.lit (7 / 4)))
        = .fin (6433713753386423 / 281474976710656) ∧
      |(6433713753386423 / 281474976710656 : ℚ)| < 10 ^ 21 ∧
      ¬ (d249 ≤ (6433713753386423 / 281474976710656 : ℚ) ∧
        (6433713753386423 / 281474976710656 : ℚ) < 25) ∧
      valorDecimal (6433713753386423 / 281474976710656) = 2286 / 100) ∧
    calcularIMC (JSNum.lit 70) (JSNum.lit (7 / 4)) =
      { valor := "22.86", classificacao := "Peso normal" } ∧
    faixa (2286 / 100) = "Peso normal" ∧
    calcularIMC (JSNum.lit 25) (JSNum.lit 1) =
      { valor := "25.00", classificacao := "Sobrepeso" } ∧
    (calcularIMC (JSNum.lit 70) (JSNum.lit (7 / 4))).classificacao
      = faixa (valorDecimal (6433713753386423 / 281474976710656)) ∧
    (calcularIMC (JSNum.lit 25) (JSNum.lit 1)).classificacao = faixa (valorDecimal 25) :=
  ⟨by decide!, by decide!, by decide!, by decide!,
    (imc_band_of_returned_valor (JSNum.lit 70) (JSNum.lit (7 / 4))
      (6433713753386423 / 281474976710656) (by decide!) (by decide!)
      (by decide!) (by decide!) (by decide!) (by decide!)).2,
    (imc_band_of_returned_valor (JSNum.lit 25) (JSNum.lit 1) 25 (by decide!) (by decide!)
      (by decide!) (by decide!) (by decide!) (by decide!)).2⟩

/-! ## The patient store: validation, addition, removal -/

/-- Claim C5. Whenever a required field of the form (`nome`, `peso`, `altura`, `idade`,
`sexo`) is empty, or `peso` or `altura` does not parse as a number, `adicionarPaciente`
shows one error alert and changes nothing else: the collection, the durable slot, the form
and the last result are as before, whatever the collection is. -/
theorem adicionarPaciente_invalid (aleatorio : JSNum) (escritaFalha : Bool) (st : AppState)
    (h : st.formData.nome = "" ∨ st.formData.peso = "" ∨ st.formData.altura = "" ∨
      st.formData.idade = "" ∨ st.formData.sexo = "" ∨
      JSNum.isNaN (parseFloat st.formData.peso) = true ∨
      JSNum.isNaN (parseFloat st.formData.altura) = true) :
    ∃ mensagem, adicionarPaciente aleatorio escritaFalha st
        = some { st with alertas := st.alertas ++ [("Erro", mensagem)] } ∧
      (mensagem = "Por favor, preencha todos os campos obrigatórios!" ∨
        mensagem = "Peso inválido!" ∨ mensagem = "Altura inválida!") := by
  unfold adicionarPaciente
  simp only
  by_cases hreq : st.formData.nome = "" ∨ st.formData.peso = "" ∨ st.formData.altura = "" ∨
      st.formData.idade = "" ∨ st.formData.sexo = ""
  · rw [if_pos hreq]
    exact ⟨_, rfl, Or.inl rfl⟩
  · rw [if_neg hreq]
    have hnan : JSNum.isNaN (parseFloat st.formData.peso) = true ∨
        JSNum.isNaN (parseFloat st.formData.altura) = true := by
      rcases h with h | h | h | h | h | h | h
      · exact absurd (Or.inl h) hreq
      · exact absurd (Or.inr (Or.inl h)) hreq
      · exact absurd (Or.inr (Or.inr (Or.inl h))) hreq
      · exact absurd (Or.inr (Or.inr (Or.inr (Or.inl h)))) hreq
      · exact absurd (Or.inr (Or.inr (Or.inr (Or.inr h)))) hreq
      · exact Or.inl h
      · exact Or.inr h
    by_cases hp : JSNum.isNaN (parseFloat st.formData.peso) = true
    · rw [if_pos hp]
      exact ⟨_, rfl, Or.inr (Or.inl rfl)⟩
    · rw [if_neg hp]
      have ha : JSNum.isNaN (parseFloat st.formData.altura) = true := by
        rcases hnan with h | h
        · exact absurd h hp
        · exact h
      rw [if_pos ha]
      exact ⟨_, rfl, Or.inr (Or.inr rfl)⟩

/-- Witness for C5: a form without a name, and a form whose weight is `abc`. -/
theorem adicionarPaciente_invalid_witness :
    (estadoSemNome.formData.nome = "" ∨ estadoSemNome.formData.peso = "" ∨
      estadoSemNome.formData.altura = "" ∨ estadoSemNome.formData.idade = "" ∨
      estadoSemNome.formData.sexo = "" ∨
      JSNum.isNaN (parseFloat estadoSemNome.formData.peso) = true ∨
      JSNum.isNaN (parseFloat estadoSemNome.formData.altura) = true) ∧
    adicionarPaciente (JSNum.lit (1 / 2)) false estadoSemNome
      = some { estadoSemNome with
          alertas := [("Erro", "Por favor, preencha todos os campos obrigatórios!")] } ∧
    adicionarPaciente (JSNum.lit (1 / 2)) false
        (handleInputChange "peso" "abc" (handleInputChange "nome" "Bia" estadoSemNome))
      = some { handleInputChange "peso" "abc" (handleInputChange "nome" "Bia" estadoSemNome) with
          alertas := [("Erro", "Peso inválido!")] } ∧
    ∃ mensagem, adicionarPaciente (JSNum.lit (1 / 2)) false estadoSemNome
        = some { estadoSemNome with alertas := estadoSemNome.alertas ++ [("Erro", mensagem)] } ∧
      (mensagem = "Por favor, preencha todos os campos obrigatórios!" ∨
        mensagem = "Peso inválido!" ∨ mensagem = "Altura inválida!") :=
  ⟨by decide!, by decide!, by decide!,
    adicionarPaciente_invalid (JSNum.lit (1 / 2)) false estadoSemNome (by decide!)⟩

/-- The state after `adicionarPaciente` on a valid form, over a collection `c`. -/
theorem adicionarPaciente_eq (aleatorio : JSNum) (escritaFalha : Bool) (st : AppState)
    (c : List JSVal) (hc : st.pacientes = .arr c)
    (hnome : st.formData.nome ≠ "") (hpeso : st.formData.peso ≠ "")
    (haltura : st.formData.altura ≠ "") (hidade : st.formData.idade ≠ "")
    (hsexo : st.formData.sexo ≠ "")
    (hw : JSNum.isNaN (parseFloat st.formData.peso) = false)
    (hh : JSNum.isNaN (parseFloat st.formData.altura) = false) :
    adicionarPaciente aleatorio escritaFalha st =
      some { salvarPacientes escritaFalha
          (.arr (c ++ [novoPaciente (JSNum.toString aleatorio) st.formData
            (parseFloat st.formData.peso) (parseFloat st.formData.altura)
            (calcularIMC (parseFloat st.formData.peso) (parseFloat st.formData.altura))]))
          { st with pacientes := .arr (c ++ [novoPaciente (JSNum.toString aleatorio)
            st.formData (parseFloat st.formData.peso) (parseFloat st.formData.altura)
            (calcularIMC (parseFloat st.formData.peso) (parseFloat st.formData.altura))]) } with
        imcResultado := some (calcularIMC (parseFloat st.formData.peso)
          (parseFloat st.formData.altura)) } := by
  have hreq : ¬ (st.formData.nome = "" ∨ st.formData.peso = "" ∨ st.formData.altura = "" ∨
      st.formData.idade = "" ∨ st.formData.sexo = "") := by
    rintro (h | h | h | h | h)
    · exact hnome h
    · exact hpeso h
    · exact haltura h
    · exact hidade h
    · exact hsexo h
  unfold adicionarPaciente
  simp only
  rw [if_neg hreq, hw, hh, hc]
  simp only [Bool.false_eq_true, if_false, espalhar]

/-- Claim C6. For every collection `c` and every form whose required fields are filled and
whose `peso` and `altura` parse to numbers, `adicionarPaciente` yields `c` followed by
exactly one new record; the record stores the parsed numbers, the fields of the form, and
the value, classification and ideal weight that `calcularIMC` and `calcularPesoIdeal`
return for those numbers. The last result shown is that of `calcularIMC`, and a successful
write puts the serialised new collection in the durable slot. -/
theorem adicionarPaciente_valid (aleatorio : JSNum) (escritaFalha : Bool) (st : AppState)
    (c : List JSVal) (hc : st.pacientes = .arr c)
    (hnome : st.formData.nome ≠ "") (hpeso : st.formData.peso ≠ "")
    (haltura : st.formData.altura ≠ "") (hidade : st.formData.idade ≠ "")
    (hsexo : st.formData.sexo ≠ "")
    (hw : JSNum.isNaN (parseFloat st.formData.peso) = false)
    (hh : JSNum.isNaN (parseFloat st.formData.altura) = false) :
    ∃ st1, adicionarPaciente aleatorio escritaFalha st = some st1 ∧
      st1.pacientes = .arr (c ++ [.obj
        [("id", .str (JSNum.toString aleatorio)),
          ("nome", .str st.formData.nome),
          ("peso", .num (parseFloat st.formData.peso)),
          ("altura", .num (parseFloat st.formData.altura)),
          ("idade", .str st.formData.idade),
          ("sexo", .str st.formData.sexo),
          ("telefone", .str st.formData.telefone),
          ("email", .str st.formData.email),
          ("endereco", .str st.formData.endereco),
          ("imc", .str (calcularIMC (parseFloat st.formData.peso)
            (parseFloat st.formData.altura)).valor),
          ("classificacao", .str (calcularIMC (parseFloat st.formData.peso)
            (parseFloat st.formData.altura)).classificacao),
          ("pesoIdeal", .str (calcularPesoIdeal (parseFloat st.formData.altura)
            st.formData.sexo))]]) ∧
      st1.imcResultado = some (calcularIMC (parseFloat st.formData.peso)
        (parseFloat st.formData.altura)) ∧
      st1.formData = st.formData ∧
      (escritaFalha = false → st1.armazenado = some (JSON.stringify st1.pacientes)) ∧
      (escritaFalha = true → st1.armazenado = st.armazenado) := by
  rw [adicionarPaciente_eq aleatorio escritaFalha st c hc hnome hpeso haltura hidade hsexo hw hh]
  refine ⟨_, rfl, ?_⟩
  cases escritaFalha <;> simp [salvarPacientes, alertar, novoPaciente]

/-- Witness for C6: the record appended for weight `70`, height `1.75`, `feminino`. -/
theorem adicionarPaciente_valid_witness :
    (estadoComFormulario.pacientes = .arr [.obj [("id", .str "0.25"), ("nome", .str "Ana")]] ∧
      estadoComFormulario.formData.nome ≠ "" ∧ estadoComFormulario.formData.peso ≠ "" ∧
      estadoComFormulario.formData.altura ≠ "" ∧ estadoComFormulario.formData.idade ≠ "" ∧
      estadoComFormulario.formData.sexo ≠ "" ∧
      JSNum.isNaN (parseFloat estadoComFormulario.formData.peso) = false ∧
      JSNum.isNaN (parseFloat estadoComFormulario.formData.altura) = false) ∧
    (adicionarPaciente (JSNum.lit (1 / 2)) false estadoComFormulario).map (·.pacientes)
      = some (.arr [.obj [("id", .str "0.25"), ("nome", .str "Ana")],
          .obj [("id", .str "0.5"), ("nome", .str "Bia"), ("peso", .num (.fin 70)),
            ("altura", .num (.fin (7 / 4))), ("idade", .str "30"), ("sexo", .str "feminino"),
            ("telefone", .str "555"), ("email", .str "bia@example.org"),
            ("endereco", .str "Rua A"), ("imc", .str "22.86"),
            ("classificacao", .str "Peso normal"), ("pesoIdeal", .str "62.50")]]) ∧
    (adicionarPaciente (JSNum.lit (1 / 2)) false estadoComFormulario).map (·.armazenado)
      = some (some ("[\x7b\"id\":\"0.25\",\"nome\":\"Ana\"\x7d,\x7b\"id\":\"0.5\"," ++
          "\"nome\":\"Bia\",\"peso\":70,\"altura\":1.75,\"idade\":\"30\"," ++
          "\"sexo\":\"feminino\",\"telefone\":\"555\",\"email\":\"bia@example.org\"," ++
          "\"endereco\":\"Rua A\",\"imc\":\"22.86\",\"classificacao\":\"Peso normal\"," ++
          "\"pesoIdeal\":\"62.50\"\x7d]")) ∧
    ∃ st1, adicionarPaciente (JSNum.lit (1 / 2)) false estadoComFormulario = some st1 ∧
      st1.imcResultado = some (calcularIMC (parseFloat estadoComFormulario.formData.peso)
        (parseFloat estadoComFormulario.formData.altura)) :=
  ⟨by decide!, by decide!, by decide!,
    (adicionarPaciente_valid (JSNum.lit (1 / 2)) false estadoComFormulario _ rfl
      (by decide) (by decide) (by decide) (by decide) (by decide) (by decide!)
      (by decide!)).imp fun _ h => ⟨h.1, h.2.2.1⟩⟩

/-- Removal of the record just added leaves the earlier records, when each of them is an
object whose `id` is not the id removed. -/
theorem filtrar_append_novo (id : String) (c : List JSVal) (ps : List (String × JSVal))
    (hrec : ∀ p ∈ c, ∃ qs, p = .obj qs ∧ qs.lookup "id" ≠ some (.str id))
    (hps : ps.lookup "id" = some (.str id)) :
    filtrar id (c ++ [.obj ps]) = some c := by
  induction c with
  | nil => simp [filtrar, idDifere, hps]
  | cons p c ih =>
    obtain ⟨qs, rfl, hq⟩ := hrec p (List.mem_cons_self _ _)
    have ih' := ih (fun p hp => hrec p (List.mem_cons_of_mem _ hp))
    have hd : idDifere id (.obj qs) = some true := by
      simp only [idDifere]
      split
      · rename_i s hs
        have : s ≠ id := by
          rintro rfl
          exact hq hs
        simp [this]
      · rfl
    simp [filtrar, hd, ih']

/-- Claim C7 (counterexample). The store holds one patient with the id `0.5`; `Math.random()`
returns 0.5 for the patient added, so removing the id given to the new record removes both
and the collection is empty, not the one before. -/
theorem excluir_removes_repeated_id :
    ((adicionarPaciente (JSNum.lit (1 / 2)) false estadoIdRepetido).bind
        (excluirPaciente (JSNum.toString (JSNum.lit (1 / 2))) false)).map (·.pacientes)
      = some (.arr []) ∧
    estadoIdRepetido.pacientes = .arr [.obj [("id", .str "0.5"), ("nome", .str "Ana")]] ∧
    ((adicionarPaciente (JSNum.lit (1 / 2)) false estadoIdRepetido).bind
        (excluirPaciente (JSNum.toString (JSNum.lit (1 / 2))) false)).map (·.pacientes)
      ≠ some estadoIdRepetido.pacientes := by
  decide!

/-- Claim C7 (amended). For every collection `c` of records none of which carries the id
that `adicionarPaciente` draws, and every valid form, `adicionarPaciente` followed by
`excluirPaciente` with that id yields exactly `c`, and a successful write leaves the
serialised `c` in the durable slot. -/
theorem adicionar_excluir (aleatorio : JSNum) (falha1 falha2 : Bool) (st : AppState)
    (c : List JSVal) (hc : st.pacientes = .arr c)
    (hrec : ∀ p ∈ c, ∃ qs, p = .obj qs ∧
      qs.lookup "id" ≠ some (.str (JSNum.toString aleatorio)))
    (hnome : st.formData.nome ≠ "") (hpeso : st.formData.peso ≠ "")
    (haltura : st.formData.altura ≠ "") (hidade : st.formData.idade ≠ "")
    (hsexo : st.formData.sexo ≠ "")
    (hw : JSNum.isNaN (parseFloat st.formData.peso) = false)
    (hh : JSNum.isNaN (parseFloat st.formData.altura) = false) :
    ∃ st1 st2, adicionarPaciente aleatorio falha1 st = some st1 ∧
      excluirPaciente (JSNum.toString aleatorio) falha2 st1 = some st2 ∧
      st2.pacientes = .arr c ∧
      (falha2 = false → st2.armazenado = some (JSON.stringify (.arr c))) := by
  rw [adicionarPaciente_eq aleatorio falha1 st c hc hnome hpeso haltura hidade hsexo hw hh]
  have hf := filtrar_append_novo (JSNum.toString aleatorio) c
    [("id", JSVal.str (JSNum.toString aleatorio)),
      ("nome", .str st.formData.nome),
      ("peso", .num (parseFloat st.formData.peso)),
      ("altura", .num (parseFloat st.formData.altura)),
      ("idade", .str st.formData.idade),
      ("sexo", .str st.formData.sexo),
      ("telefone", .str st.formData.telefone),
      ("email", .str st.formData.email),
      ("endereco", .str st.formData.endereco),
      ("imc", .str (calcularIMC (parseFloat st.formData.peso)
        (parseFloat st.formData.altura)).valor),
      ("classificacao", .str (calcularIMC (parseFloat st.formData.peso)
        (parseFloat st.formData.altura)).classificacao),
      ("pesoIdeal", .str (calcularPesoIdeal (parseFloat st.formData.altura)
        st.formData.sexo))] hrec (by simp [List.lookup])
  cases falha1 <;> cases falha2 <;>
    simp [excluirPaciente, salvarPacientes, alertar, novoPaciente, hf]

/-- Witness for C7: adding to and removing from a store whose only patient has the id
`0.25`, with `Math.random()` returning 0.5. -/
theorem adicionar_excluir_witness :
    (estadoComFormulario.pacientes = .arr [.obj [("id", .str "0.25"), ("nome", .str "Ana")]] ∧
      (∀ p ∈ [JSVal.obj [("id", .str "0.25"), ("nome", .str "Ana")]], ∃ qs, p = .obj qs ∧
        qs.lookup "id" ≠ some (.str (JSNum.toString (JSNum.lit (1 / 2))))) ∧
      JSNum.isNaN (parseFloat estadoComFormulario.formData.peso) = false ∧
      JSNum.isNaN (parseFloat estadoComFormulario.formData.altura) = false) ∧
    ((adicionarPaciente (JSNum.lit (1 / 2)) false estadoComFormulario).bind
        (excluirPaciente "0.5" false)).map (·.pacientes)
      = some estadoComFormulario.pacientes ∧
    ∃ st1 st2, adicionarPaciente (JSNum.lit (1 / 2)) false estadoComFormulario = some st1 ∧
      excluirPaciente (JSNum.toString (JSNum.lit (1 / 2))) false st1 = some st2 ∧
      st2.pacientes = .arr [.obj [("id", .str "0.25"), ("nome", .str "Ana")]] ∧
      (false = false → st2.armazenado = some (JSON.stringify
        (.arr [.obj [("id", .str "0.25"), ("nome", .str "Ana")]]))) :=
  ⟨⟨rfl, by
      intro p hp
      rw [List.mem_singleton] at hp
      exact ⟨_, hp, by decide!⟩, by decide!, by decide!⟩,
    by decide!,
    adicionar_excluir (JSNum.lit (1 / 2)) false false estadoComFormulario _ rfl
      (by
        intro p hp
        rw [List.mem_singleton] at hp
        exact ⟨_, hp, by decide!⟩)
      (by decide) (by decide) (by decide) (by decide) (by decide) (by decide!) (by decide!)⟩

/-! ## Loading -/

/-- Claim C9 (counterexample). A slot that holds the text `null`, `5` or an empty object is
not a serialised collection, yet `JSON.parse` accepts it: `carregarPacientes` makes that
value the in-memory collection, which is then not the empty sequence, and shows no alert.
With the collection `null`, a later `excluirPaciente`, and `adicionarPaciente` on a
complete form, throw a `TypeError`. -/
theorem carregar_payload_not_a_list :
    carregarPacientes false (estadoInicial (some "null")) =
      { estadoInicial (some "null") with pacientes := .null } ∧
    (carregarPacientes false (estadoInicial (some "null"))).pacientes ≠ .arr [] ∧
    (carregarPacientes false (estadoInicial (some "null"))).alertas = [] ∧
    carregarPacientes false (estadoInicial (some "5")) =
      { estadoInicial (some "5") with pacientes := .num (.fin 5) } ∧
    carregarPacientes false (estadoInicial (some "\x7b\x7d")) =
      { estadoInicial (some "\x7b\x7d") with pacientes := .obj [] } ∧
    excluirPaciente "0.5" false (carregarPacientes false (estadoInicial (some "null"))) = none ∧
    adicionarPaciente (JSNum.lit (1 / 2)) false
      { carregarPacientes false (estadoInicial (some "null")) with
        formData := estadoComFormulario.formData } = none := by
  decide!

/-- Claim C9 (amended). If the durable slot is absent or holds a text that `JSON.parse`
rejects, then `carregarPacientes`, whether or not the read itself fails, returns a state (it
is a total function: nothing is raised) in which the in-memory collection is as it was; run
on the state at mount, the collection is the empty sequence. The slot is left alone, and
with an absent slot and a successful read the whole state is unchanged. -/
theorem carregarPacientes_absent_or_corrupt (leituraFalha : Bool) (st : AppState)
    (h : st.armazenado = none ∨ ∃ s, st.armazenado = some s ∧ JSON.parse s = none) :
    (carregarPacientes leituraFalha st).pacientes = st.pacientes ∧
    (carregarPacientes leituraFalha (estadoInicial st.armazenado)).pacientes = .arr [] ∧
    (carregarPacientes leituraFalha st).armazenado = st.armazenado ∧
    ((st.armazenado = none ∧ leituraFalha = false) → carregarPacientes leituraFalha st = st) := by
  unfold carregarPacientes
  cases leituraFalha
  · rcases h with h | ⟨s, hs, hp⟩
    · simp [h, estadoInicial]
    · by_cases he : s = ""
      · simp [hs, he, estadoInicial]
      · simp [hs, he, hp, estadoInicial, alertar]
  · simp [alertar, estadoInicial]

/-- Witness for C9: a slot that holds the truncated text `[{"id":` is rejected by the
parser; the collection stays empty and one alert is shown. -/
theorem carregarPacientes_absent_or_corrupt_witness :
    ((estadoInicial (some "[\x7b\"id\":")).armazenado = none ∨
      ∃ s, (estadoInicial (some "[\x7b\"id\":")).armazenado = some s ∧ JSON.parse s = none) ∧
    carregarPacientes false (estadoInicial (some "[\x7b\"id\":"))
      = { estadoInicial (some "[\x7b\"id\":") with
          alertas := [("Erro", "Não foi possível carregar os pacientes.")] } ∧
    carregarPacientes false (estadoInicial none) = estadoInicial none ∧
    (carregarPacientes false (estadoInicial (some "[\x7b\"id\":"))).pacientes
      = (estadoInicial (some "[\x7b\"id\":")).pacientes :=
  ⟨Or.inr ⟨_, rfl, by decide!⟩, by decide!, by decide!,
    (carregarPacientes_absent_or_corrupt false (estadoInicial (some "[\x7b\"id\":"))
      (Or.inr ⟨_, rfl, by decide!⟩)).1⟩

/-! ## Digits: reading back what was written -/

theorem isDigit_digitChar (d : Nat) (h : d < 10) : isDigit (digitChar d) = true := by
  interval_cases d <;> decide

theorem digitChar_val (d : Nat) (h : d < 10) : (digitChar d).toNat - 48 = d := by
  interval_cases d <;> decide

theorem natDigits_isDigit (n : Nat) : ∀ c ∈ natDigits n, isDigit c = true := by
  induction n using Nat.strong_induction_on with
  | _ n ih =>
    by_cases h : n < 10
    · rw [natDigits_lt n h]
      intro c hc
      rw [List.mem_singleton] at hc
      rw [hc]
      exact isDigit_digitChar n h
    · rw [natDigits_step n (by omega)]
      intro c hc
      rw [List.mem_append, List.mem_singleton] at hc
      rcases hc with hc | hc
      · exact ih (n / 10) (Nat.div_lt_self (by omega) (by omega)) c hc
      · rw [hc]
        exact isDigit_digitChar _ (Nat.mod_lt _ (by omega))

theorem digitsVal_nil (acc : Nat) : digitsVal acc [] = acc := rfl

theorem digitsVal_cons (acc : Nat) (c : Char) (cs : List Char) :
    digitsVal acc (c :: cs) = digitsVal (acc * 10 + (c.toNat - 48)) cs := rfl

theorem digitsVal_append (acc : Nat) (a b : List Char) :
    digitsVal acc (a ++ b) = digitsVal (digitsVal acc a) b := by
  induction a generalizing acc with
  | nil => rfl
  | cons c a ih =>
    rw [List.cons_append, digitsVal_cons, digitsVal_cons]
    exact ih _

theorem digitsVal_acc (acc : Nat) (ds : List Char) :
    digitsVal acc ds = acc * 10 ^ ds.length + digitsVal 0 ds := by
  induction ds generalizing acc with
  | nil => simp [digitsVal_nil]
  | cons c ds ih =>
    rw [digitsVal_cons, digitsVal_cons, List.length_cons,
      ih (acc * 10 + (c.toNat - 48)), ih (0 * 10 + (c.toNat - 48))]
    ring

theorem digitsVal_natDigits (n : Nat) : digitsVal 0 (natDigits n) = n := by
  induction n using Nat.strong_induction_on with
  | _ n ih =>
    by_cases h : n < 10
    · rw [natDigits_lt n h]
      rw [digitsVal_cons, digitsVal_nil, digitChar_val n h]
      omega
    · rw [natDigits_step n (by omega), digitsVal_append,
        ih (n / 10) (Nat.div_lt_self (by omega) (by omega))]
      rw [digitsVal_cons, digitsVal_nil, digitChar_val _ (Nat.mod_lt _ (by omega))]
      omega

theorem digitsVal_replicate_zero (acc z : Nat) :
    digitsVal acc (List.replicate z '0') = acc * 10 ^ z := by
  induction z generalizing acc with
  | zero => simp [digitsVal_nil]
  | succ z ih =>
    have h0 : ('0' : Char).toNat - 48 = 0 := by decide
    rw [List.replicate_succ, digitsVal_cons, ih, h0]
    ring

theorem spanDigits_append (ds r : List Char) (h : ∀ c ∈ ds, isDigit c = true) :
    spanDigits (ds ++ r) = (ds ++ (spanDigits r).1, (spanDigits r).2) := by
  induction ds with
  | nil => simp
  | cons c ds ih =>
    have hc : isDigit c = true := h c (List.mem_cons_self _ _)
    have ih' := ih (fun c hc => h c (List.mem_cons_of_mem _ hc))
    simp [spanDigits, hc, ih']

theorem spanDigits_fim (r : List Char) (h : fimNumero r) : spanDigits r = ([], r) := by
  cases r with
  | nil => rfl
  | cons c t => simp [spanDigits, (h c t rfl).1]

theorem natDigits_length (s k : Nat) (hk : 1 ≤ k) (hlo : 10 ^ (k - 1) ≤ s) (hhi : s < 10 ^ k) :
    (natDigits s).length = k := by
  induction k generalizing s with
  | zero => omega
  | succ k ih =>
    by_cases h1 : k = 0
    · subst h1
      simp at hlo hhi
      rw [natDigits_lt s (by omega)]
      rfl
    · have hk' : 1 ≤ k := by omega
      have e1 : 10 ^ (k + 1 - 1) = 10 * 10 ^ (k - 1) := by
        rw [Nat.add_sub_cancel, ← pow_succ']
        congr 1
        omega
      have e2 : 10 ^ (k + 1) = 10 * 10 ^ k := by rw [pow_succ']
      rw [e1] at hlo
      rw [e2] at hhi
      have hp : 1 ≤ 10 ^ (k - 1) := Nat.one_le_pow _ _ (by omega)
      rw [natDigits_step s (by omega)]
      simp only [List.length_append, List.length_cons, List.length_nil]
      rw [ih (s / 10) hk' (by omega) (by omega)]

theorem natDigits_head (s : Nat) (hs : 0 < s) :
    ∃ d t, natDigits s = digitChar d :: t ∧ 1 ≤ d ∧ d < 10 := by
  induction s using Nat.strong_induction_on with
  | _ s ih =>
    by_cases h : s < 10
    · exact ⟨s, [], natDigits_lt s h, hs, h⟩
    · obtain ⟨d, t, ht, hd⟩ := ih (s / 10) (Nat.div_lt_self (by omega) (by omega)) (by omega)
      exact ⟨d, t ++ [digitChar (s % 10)], by rw [natDigits_step s (by omega), ht]; rfl, hd⟩

/-! ## Numbers: reading back what `Number::toString` writes -/

theorem startsWith_cons (c d : Char) (r : List Char) :
    startsWith c (d :: r) = decide (d = c) := rfl

theorem startsWith_nil (c : Char) : startsWith c [] = false := rfl

theorem isDigit_ne (c : Char) (h : isDigit c = true) :
    c ≠ '.' ∧ c ≠ 'e' ∧ c ≠ 'E' ∧ c ≠ '-' ∧ c ≠ '+' := by
  simp only [isDigit, decide_eq_true_eq] at h
  refine ⟨?_, ?_, ?_, ?_, ?_⟩ <;> rintro rfl <;> revert h <;> decide

theorem exponentPart_fim (rest : List Char) (h : fimNumero rest) :
    exponentPart rest = (0, rest) ∧ (startsWith 'e' rest || startsWith 'E' rest) = false := by
  cases rest with
  | nil => exact ⟨rfl, rfl⟩
  | cons c t =>
    obtain ⟨_, _, h3, h4⟩ := h c t rfl
    simp [exponentPart, startsWith_cons, h3, h4]

theorem exponentPart_some (neg : Bool) (ed rest : List Char) (hed : ∀ c ∈ ed, isDigit c = true)
    (hne : ed ≠ []) (h : fimNumero rest) :
    exponentPart (expText (some (neg, ed)) ++ rest) = (expVal (some (neg, ed)), rest) := by
  have hsp : spanDigits (ed ++ rest) = (ed, rest) := by
    rw [spanDigits_append ed rest hed, spanDigits_fim rest h]
    simp
  cases neg
  · simp [exponentPart, expText, expVal, startsWith_cons, hsp, hne]
  · simp [exponentPart, expText, expVal, startsWith_cons, hsp, hne]

theorem fimNumero_expText (ex : Option (Bool × List Char)) (rest : List Char)
    (h : fimNumero rest) :
    spanDigits (expText ex ++ rest) = ([], expText ex ++ rest) ∧
      startsWith '.' (expText ex ++ rest) = false := by
  cases ex with
  | none =>
    simp only [expText, List.nil_append]
    refine ⟨spanDigits_fim rest h, ?_⟩
    cases rest with
    | nil => rfl
    | cons c t => simp [startsWith_cons, (h c t rfl).2.1]
  | some p =>
    obtain ⟨neg, ed⟩ := p
    constructor
    · simp only [expText, List.cons_append, spanDigits]
      rw [if_neg (by decide)]
      rfl
    · simp [expText, startsWith_cons]

theorem exponentPart_expText (ex : Option (Bool × List Char)) (rest : List Char)
    (hex : ∀ neg ed, ex = some (neg, ed) → (∀ c ∈ ed, isDigit c = true) ∧ ed ≠ [])
    (h : fimNumero rest) :
    exponentPart (expText ex ++ rest) = (expVal ex, rest) ∧
      ((startsWith 'e' (expText ex ++ rest) || startsWith 'E' (expText ex ++ rest)) &&
        decide ((exponentPart (expText ex ++ rest)).2 = expText ex ++ rest)) = false := by
  cases ex with
  | none =>
    simp only [expText, List.nil_append, expVal]
    obtain ⟨h1, h2⟩ := exponentPart_fim rest h
    refine ⟨h1, ?_⟩
    rw [h2]
    rfl
  | some p =>
    obtain ⟨neg, ed⟩ := p
    obtain ⟨hed, hne⟩ := hex neg ed rfl
    rw [exponentPart_some neg ed rest hed hne h]
    refine ⟨rfl, ?_⟩
    have hlen : rest ≠ expText (some (neg, ed)) ++ rest := by
      intro e
      have := congrArg List.length e
      simp [expText] at this
      omega
    simp [hlen]

/-- Reading a number text made of a sign, integer digits, fraction digits and an exponent
gives the binary64 value of that decimal numeral. -/
theorem readNumber_shape (neg : Bool) (ip fp : List Char) (ex : Option (Bool × List Char))
    (rest : List Char)
    (hip : ∀ c ∈ ip, isDigit c = true) (hne : ip ≠ [])
    (hzero : ip = ['0'] ∨ startsWith '0' ip = false)
    (hfp : ∀ c ∈ fp, isDigit c = true)
    (hex : ∀ neg ed, ex = some (neg, ed) → (∀ c ∈ ed, isDigit c = true) ∧ ed ≠ [])
    (h : fimNumero rest) :
    JSON.readNumber ((if neg then ['-'] else []) ++ (ip ++ (fracText fp ++ (expText ex ++ rest))))
      = some (round64 (if neg then
            -((digitsVal 0 (ip ++ fp) : ℚ) * pow10 (expVal ex - fp.length))
          else (digitsVal 0 (ip ++ fp) : ℚ) * pow10 (expVal ex - fp.length)), rest) := by
  obtain ⟨c0, t0, rfl⟩ := List.exists_cons_of_ne_nil hne
  have hc0 : isDigit c0 = true := hip c0 (List.mem_cons_self _ _)
  have hc0m : c0 ≠ '-' := (isDigit_ne c0 hc0).2.2.2.1
  obtain ⟨hsp2, hdot2⟩ := fimNumero_expText ex rest h
  obtain ⟨hexp, hbad⟩ := exponentPart_expText ex rest hex h
  -- the part after the integer digits
  have hsp1 : spanDigits (fracText fp ++ (expText ex ++ rest))
      = ([], fracText fp ++ (expText ex ++ rest)) := by
    unfold fracText
    split
    · simpa using hsp2
    · simp only [List.cons_append, spanDigits]
      rw [if_neg (by decide)]
      rfl
  have hfrac : (if startsWith '.' (fracText fp ++ (expText ex ++ rest)) then
        (spanDigits (fracText fp ++ (expText ex ++ rest)).tail).1 else []) = fp ∧
      (if startsWith '.' (fracText fp ++ (expText ex ++ rest)) then
        (spanDigits (fracText fp ++ (expText ex ++ rest)).tail).2
        else fracText fp ++ (expText ex ++ rest)) = expText ex ++ rest ∧
      (startsWith '.' (fracText fp ++ (expText ex ++ rest)) && decide (fp = [])) = false := by
    unfold fracText
    by_cases hf : fp = []
    · simp [hf, hdot2]
    · simp only [if_neg hf, List.cons_append, startsWith_cons, List.tail_cons]
      rw [spanDigits_append fp _ hfp, hsp2]
      simp [hf]
  obtain ⟨hf1, hf2, hf3⟩ := hfrac
  have hbody : (if startsWith '0' ((c0 :: t0) ++ (fracText fp ++ (expText ex ++ rest))) then ['0']
        else (spanDigits ((c0 :: t0) ++ (fracText fp ++ (expText ex ++ rest)))).1) = c0 :: t0 ∧
      (if startsWith '0' ((c0 :: t0) ++ (fracText fp ++ (expText ex ++ rest))) then
          ((c0 :: t0) ++ (fracText fp ++ (expText ex ++ rest))).tail
        else (spanDigits ((c0 :: t0) ++ (fracText fp ++ (expText ex ++ rest)))).2)
        = fracText fp ++ (expText ex ++ rest) := by
    rcases hzero with hz | hz
    · injection hz with h1 h2
      subst h1 h2
      simp [startsWith_cons]
    · have hz' : startsWith '0' ((c0 :: t0) ++ (fracText fp ++ (expText ex ++ rest))) = false := by
        simpa [startsWith_cons] using hz
      rw [hz', spanDigits_append (c0 :: t0) _ hip, hsp1]
      simp
  obtain ⟨hb1, hb2⟩ := hbody
  cases neg
  · simp only [Bool.false_eq_true, if_false, List.nil_append]
    unfold JSON.readNumber
    have hn : startsWith '-' ((c0 :: t0) ++ (fracText fp ++ (expText ex ++ rest))) = false := by
      simp [startsWith_cons, hc0m]
    simp only [hn, Bool.false_eq_true, if_false]
    rw [hb1, hb2, hf1, hf2, hf3, hbad, hexp]
    simp
  · simp only [if_true, List.singleton_append]
    unfold JSON.readNumber
    have hn : startsWith '-' ('-' :: ((c0 :: t0) ++ (fracText fp ++ (expText ex ++ rest)))) = true := by
      simp [startsWith_cons]
    simp only [hn, if_true, List.tail_cons]
    rw [hb1, hb2, hf1, hf2, hf3, hbad, hexp]
    simp

theorem pow10_eq (e : Int) : pow10 e = (10 : ℚ) ^ e := by
  unfold pow10
  split
  · rename_i h
    have h1 : ((e.toNat : Int)) = e := Int.toNat_of_nonneg h
    conv_rhs => rw [← h1]
    rw [zpow_natCast]
    push_cast
    rfl
  · rename_i h
    have h1 : (((-e).toNat : Int)) = -e := Int.toNat_of_nonneg (by omega)
    have h2 : e = - (((-e).toNat : Int)) := by omega
    conv_rhs => rw [h2]
    rw [zpow_neg, zpow_natCast, Rat.mkRat_eq_div]
    push_cast
    simp

theorem pow2_eq (e : Int) : pow2 e = (2 : ℚ) ^ e := by
  unfold pow2
  split
  · rename_i h
    have h1 : ((e.toNat : Int)) = e := Int.toNat_of_nonneg h
    conv_rhs => rw [← h1]
    rw [zpow_natCast]
    push_cast
    rfl
  · rename_i h
    have h2 : e = - (((-e).toNat : Int)) := by omega
    conv_rhs => rw [h2]
    rw [zpow_neg, zpow_natCast, Rat.mkRat_eq_div]
    push_cast
    simp

theorem digitChar_ne_zero (d : Nat) (h1 : 1 ≤ d) (h2 : d < 10) : digitChar d ≠ '0' := by
  interval_cases d <;> decide

/-- The text that steps 6 to 10 of `Number::toString` write is a decimal numeral: integer
digits without a superfluous leading zero, fraction digits and an exponent, whose value is
`s * 10^(n-k)`. -/
theorem formatDigits_shape (s : Nat) (n : Int) (k : Nat) (hs : 0 < s)
    (hk : (natDigits s).length = k) :
    ∃ ip fp ex, formatDigits s n k = ip ++ (fracText fp ++ expText ex) ∧
      (∀ c ∈ ip, isDigit c = true) ∧ ip ≠ [] ∧ (ip = ['0'] ∨ startsWith '0' ip = false) ∧
      (∀ c ∈ fp, isDigit c = true) ∧
      (∀ neg ed, ex = some (neg, ed) → (∀ c ∈ ed, isDigit c = true) ∧ ed ≠ []) ∧
      (digitsVal 0 (ip ++ fp) : ℚ) * pow10 (expVal ex - fp.length) = (s : ℚ) * pow10 (n - k) := by
  obtain ⟨d, t, hds, hd1, hd2⟩ := natDigits_head s hs
  have hdig := natDigits_isDigit s
  have hval := digitsVal_natDigits s
  have hk1 : 1 ≤ k := by rw [← hk, hds]; simp
  have hd0 : digitChar d ≠ '0' := digitChar_ne_zero d hd1 hd2
  have h0dig : isDigit '0' = true := by decide
  have htake : ∀ m, 0 < m → ∃ t1, List.take m (natDigits s) = digitChar d :: t1 := by
    intro m hm
    obtain ⟨m', rfl⟩ : ∃ m', m = m' + 1 := ⟨m - 1, by omega⟩
    exact ⟨List.take m' t, by rw [hds]; rfl⟩
  have hsplit : ∀ m, (digitsVal 0 (List.take m (natDigits s) ++ List.drop m (natDigits s)) : ℚ)
      = (s : ℚ) := by
    intro m
    rw [List.take_append_drop, hval]
  unfold formatDigits
  simp only
  by_cases c1 : (k : Int) ≤ n ∧ n ≤ 21
  · rw [if_pos c1]
    refine ⟨natDigits s ++ List.replicate (n - k).toNat '0', [], none, ?_, ?_, ?_, ?_, ?_, ?_, ?_⟩
    · simp [fracText, expText]
    · intro c hc
      rw [List.mem_append] at hc
      rcases hc with hc | hc
      · exact hdig c hc
      · rw [List.eq_of_mem_replicate hc]; exact h0dig
    · rw [hds]; simp
    · right; rw [hds]; simpa [startsWith_cons] using hd0
    · simp
    · simp
    · rw [List.append_nil, digitsVal_append, hval, digitsVal_replicate_zero, pow10_eq, pow10_eq]
      have e1 : (((n - k).toNat : Int)) = n - k := Int.toNat_of_nonneg (by omega)
      conv_rhs => rw [← e1]
      rw [zpow_natCast]
      simp [expVal]
  rw [if_neg c1]
  by_cases c2 : 0 < n ∧ n ≤ 21
  · rw [if_pos c2]
    have hnk : n.toNat < k := by omega
    have hn0 : 0 < n.toNat := by omega
    obtain ⟨t1, ht1⟩ := htake n.toNat hn0
    have hfl : (List.drop n.toNat (natDigits s)).length = k - n.toNat := by
      rw [List.length_drop, hk]
    have hfne : List.drop n.toNat (natDigits s) ≠ [] := by
      intro e
      rw [e] at hfl
      simp at hfl
      omega
    refine ⟨List.take n.toNat (natDigits s), List.drop n.toNat (natDigits s), none,
      ?_, ?_, ?_, ?_, ?_, ?_, ?_⟩
    · simp [fracText, expText, hfne]
    · exact fun c hc => hdig c (List.mem_of_mem_take hc)
    · rw [ht1]; simp
    · right; rw [ht1]; simpa [startsWith_cons] using hd0
    · exact fun c hc => hdig c (List.mem_of_mem_drop hc)
    · simp
    · rw [hsplit, hfl, pow10_eq, pow10_eq]
      congr 2
      simp only [expVal]
      omega
  rw [if_neg c2]
  by_cases c3 : -6 < n ∧ n ≤ 0
  · rw [if_pos c3]
    have hfne : List.replicate (-n).toNat '0' ++ natDigits s ≠ [] := by rw [hds]; simp
    refine ⟨['0'], List.replicate (-n).toNat '0' ++ natDigits s, none, ?_, ?_, ?_, ?_, ?_, ?_, ?_⟩
    · simp [fracText, expText, hfne]
    · intro c hc
      rw [List.mem_singleton] at hc
      rw [hc]; exact h0dig
    · simp
    · left; rfl
    · intro c hc
      rw [List.mem_append] at hc
      rcases hc with hc | hc
      · rw [List.eq_of_mem_replicate hc]; exact h0dig
      · exact hdig c hc
    · simp
    · have hz : digitsVal 0 (['0'] ++ (List.replicate (-n).toNat '0' ++ natDigits s)) = s := by
        rw [← List.append_assoc, digitsVal_append]
        have : digitsVal 0 (['0'] ++ List.replicate (-n).toNat '0') = 0 := by
          rw [show ['0'] ++ List.replicate (-n).toNat '0'
            = List.replicate ((-n).toNat + 1) '0' from rfl, digitsVal_replicate_zero]
          simp
        rw [this, hval]
      rw [hz, pow10_eq, pow10_eq]
      congr 2
      simp only [expVal, List.length_append, List.length_replicate, hk]
      push_cast
      have e1 : (((-n).toNat : Int)) = -n := Int.toNat_of_nonneg (by omega)
      omega
  rw [if_neg c3]
  have hed : ∀ c ∈ natDigits (n - 1).natAbs, isDigit c = true := natDigits_isDigit _
  have hene : natDigits (n - 1).natAbs ≠ [] := by
    intro e
    have := natDigits_length_pos (n - 1).natAbs
    rw [e] at this
    simp at this
  have hev : expVal (some (decide (n - 1 < 0), natDigits (n - 1).natAbs)) = n - 1 := by
    simp only [expVal, digitsVal_natDigits]
    by_cases hneg : n - 1 < 0
    · simp only [hneg, decide_True, if_true]
      omega
    · simp only [hneg, decide_False, Bool.false_eq_true, if_false]
      omega
  have hsign : ∀ r : List Char, 'e' :: (if n - 1 < 0 then '-' else '+') :: r
      = 'e' :: (if decide (n - 1 < 0) = true then '-' else '+') :: r := by
    intro r
    by_cases hneg : n - 1 < 0 <;> simp [hneg]
  by_cases c4 : k = 1
  · rw [if_pos c4]
    refine ⟨natDigits s, [], some (decide (n - 1 < 0), natDigits (n - 1).natAbs),
      ?_, ?_, ?_, ?_, ?_, ?_, ?_⟩
    · simp only [fracText, if_true, List.nil_append, expText]
      rw [hsign]
    · exact hdig
    · rw [hds]; simp
    · right; rw [hds]; simpa [startsWith_cons] using hd0
    · simp
    · intro neg ed he
      injection he with he
      injection he with he1 he2
      subst he2
      exact ⟨hed, hene⟩
    · rw [List.append_nil, hval, hev, pow10_eq, pow10_eq, c4]
      simp
  · rw [if_neg c4]
    obtain ⟨t1, ht1⟩ := htake 1 (by omega)
    have hfl : (List.drop 1 (natDigits s)).length = k - 1 := by
      rw [List.length_drop, hk]
    have hfne : List.drop 1 (natDigits s) ≠ [] := by
      intro e
      rw [e] at hfl
      simp at hfl
      omega
    refine ⟨List.take 1 (natDigits s), List.drop 1 (natDigits s),
      some (decide (n - 1 < 0), natDigits (n - 1).natAbs), ?_, ?_, ?_, ?_, ?_, ?_, ?_⟩
    · simp only [fracText, if_neg hfne, expText, List.cons_append]
      rw [hsign]
    · exact fun c hc => hdig c (List.mem_of_mem_take hc)
    · rw [ht1]; simp
    · right; rw [ht1]; simpa [startsWith_cons] using hd0
    · exact fun c hc => hdig c (List.mem_of_mem_drop hc)
    · intro neg ed he
      injection he with he
      injection he with he1 he2
      subst he2
      exact ⟨hed, hene⟩
    · rw [hsplit, hev, hfl, pow10_eq, pow10_eq]
      congr 2
      omega

/-- Reading back the text that steps 6 to 10 of `Number::toString` write for the digits
`s`, with an optional minus sign in front. -/
theorem readNumber_formatDigits (neg : Bool) (s : Nat) (n : Int) (k : Nat) (rest : List Char)
    (hs : 0 < s) (hk : (natDigits s).length = k) (h : fimNumero rest) :
    JSON.readNumber ((if neg then ['-'] else []) ++ (formatDigits s n k ++ rest))
      = some (round64 (if neg then -((s : ℚ) * pow10 (n - k)) else (s : ℚ) * pow10 (n - k)),
          rest) := by
  obtain ⟨ip, fp, ex, htxt, hip, hne, hzero, hfp, hex, hv⟩ := formatDigits_shape s n k hs hk
  have := readNumber_shape neg ip fp ex rest hip hne hzero hfp hex h
  rw [hv] at this
  rw [← this, htxt]
  simp only [List.append_assoc]

/-! ## Rounding is symmetric, and binary64 values have a finite decimal expansion -/

theorem ilog2_neg (x : ℚ) : ilog2 (-x) = ilog2 x := by
  unfold ilog2
  simp only [Rat.num_neg_eq_neg_num, Int.natAbs_neg, Rat.den_neg_eq_den, abs_neg]

theorem roundHalfEven_neg (x : ℚ) : roundHalfEven (-x) = - roundHalfEven x := by
  have hf1 : ((Rat.floor x : ℤ) : ℚ) ≤ x := Rat.le_floor.mp le_rfl
  have hf2 : x < (Rat.floor x : ℤ) + 1 := Int.lt_floor_add_one x
  by_cases hint : x = (Rat.floor x : ℤ)
  · -- `x` is an integer
    have hneg : Rat.floor (-x) = - Rat.floor x := by
      have : -x = ((- Rat.floor x : ℤ) : ℚ) := by push_cast; linarith
      rw [this]
      exact Int.floor_intCast (α := ℚ) (- Rat.floor x)
    unfold roundHalfEven
    simp only [hneg]
    have e1 : x - (Rat.floor x : ℤ) = 0 := by linarith
    have e2 : -x - ((- Rat.floor x : ℤ) : ℚ) = 0 := by push_cast; linarith
    rw [e1, e2]
    norm_num
  · have hlt : ((Rat.floor x : ℤ) : ℚ) < x := lt_of_le_of_ne hf1 (Ne.symm hint)
    have hneg : Rat.floor (-x) = - Rat.floor x - 1 := by
      have h1 : ((- Rat.floor x - 1 : ℤ) : ℚ) ≤ -x := by push_cast; linarith
      have h2 : -x < ((- Rat.floor x - 1 : ℤ) : ℚ) + 1 := by push_cast; linarith
      exact Int.floor_eq_iff.mpr ⟨h1, h2⟩
    unfold roundHalfEven
    simp only [hneg]
    have e2 : -x - ((- Rat.floor x - 1 : ℤ) : ℚ) = 1 - (x - (Rat.floor x : ℤ)) := by
      push_cast; ring
    rw [e2]
    generalize hr : x - (Rat.floor x : ℤ) = r at *
    generalize Rat.floor x = f at *
    by_cases c1 : r < 1 / 2
    · have c1' : ¬ (1 - r < 1 / 2) := by intro; linarith
      have c1'' : (1 / 2 : ℚ) < 1 - r := by linarith
      simp only [c1, c1', c1'', if_true, if_false]
      omega
    · by_cases c2 : 1 / 2 < r
      · have c2' : 1 - r < 1 / 2 := by linarith
        simp only [c1, c2, c2', if_true, if_false]
        omega
      · have hr2 : r = 1 / 2 := by linarith
        have c3 : ¬ (1 - r < 1 / 2) := by intro; linarith
        have c4 : ¬ ((1 / 2 : ℚ) < 1 - r) := by intro; linarith
        simp only [c1, c2, c3, c4, if_false]
        by_cases hev : f % 2 = 0
        · have : ¬ ((-f - 1) % 2 = 0) := by omega
          simp only [hev, this, if_true, if_false]
          omega
        · have : (-f - 1) % 2 = 0 := by omega
          simp only [hev, this, if_true, if_false]
          omega

/-- The opposite of a number. -/
theorem round64_neg (x q : ℚ) (h : round64 x = .fin q) : round64 (-x) = .fin (-q) := by
  unfold round64 at h ⊢
  simp only at h ⊢
  by_cases h0 : x = 0
  · rw [if_pos h0] at h
    injection h with h
    subst h0
    simp [← h]
  · have h0' : ¬ -x = 0 := by simpa using h0
    rw [if_neg h0] at h
    rw [if_neg h0', ilog2_neg]
    generalize max (ilog2 x) (-1022) = e at h ⊢
    have hdiv : -x / pow2 (e - 52) = -(x / pow2 (e - 52)) := by ring
    rw [hdiv, roundHalfEven_neg]
    have habs : |((-roundHalfEven (x / pow2 (e - 52)) : ℤ) : ℚ) * pow2 (e - 52)|
        = |((roundHalfEven (x / pow2 (e - 52)) : ℤ) : ℚ) * pow2 (e - 52)| := by
      push_cast
      rw [neg_mul, abs_neg]
    rw [habs]
    split_ifs at h with hov
    injection h with h
    rw [if_neg hov, ← h]
    push_cast
    rw [neg_mul]

theorem shortestFuel_spec (x : ℚ) (n : Int) (fuel k0 s k : Nat)
    (h : shortestFuel x n fuel k0 = some (s, k)) :
    10 ^ (k - 1) ≤ s ∧ s < 10 ^ k ∧ round64 ((s : ℚ) * pow10 (n - k)) = .fin x ∧ k0 ≤ k := by
  induction fuel generalizing k0 with
  | zero => simp [shortestFuel] at h
  | succ fuel ih =>
    unfold shortestFuel at h
    simp only at h
    have hlo : ∀ (hok : (decide (10 ^ (k0 - 1) ≤ (Rat.floor (x / pow10 (n - k0))).toNat) &&
          decide ((Rat.floor (x / pow10 (n - k0))).toNat < 10 ^ k0) &&
          decide (round64 (((Rat.floor (x / pow10 (n - k0))).toNat : ℚ) * pow10 (n - k0))
            = .fin x)) = true)
        (he : ((Rat.floor (x / pow10 (n - k0))).toNat, k0) = (s, k)),
        10 ^ (k - 1) ≤ s ∧ s < 10 ^ k ∧ round64 ((s : ℚ) * pow10 (n - k)) = .fin x ∧ k0 ≤ k := by
      intro hok he
      injection he with he1 he2
      subst he1 he2
      simp only [Bool.and_eq_true, decide_eq_true_eq] at hok
      exact ⟨hok.1.1, hok.1.2, hok.2, le_rfl⟩
    have hhi : ∀ (hok : (decide (10 ^ (k0 - 1) ≤ (Rat.floor (x / pow10 (n - k0))).toNat + 1) &&
          decide ((Rat.floor (x / pow10 (n - k0))).toNat + 1 < 10 ^ k0) &&
          decide (round64 ((((Rat.floor (x / pow10 (n - k0))).toNat + 1 : Nat) : ℚ)
            * pow10 (n - k0)) = .fin x)) = true)
        (he : ((Rat.floor (x / pow10 (n - k0))).toNat + 1, k0) = (s, k)),
        10 ^ (k - 1) ≤ s ∧ s < 10 ^ k ∧ round64 ((s : ℚ) * pow10 (n - k)) = .fin x ∧ k0 ≤ k := by
      intro hok he
      injection he with he1 he2
      subst he1 he2
      simp only [Bool.and_eq_true, decide_eq_true_eq] at hok
      exact ⟨hok.1.1, hok.1.2, hok.2, le_rfl⟩
    split_ifs at h with c1 c2 c3 c4 c5 c6
    · rw [Bool.and_eq_true] at c1; exact hlo c1.1 (Option.some.inj h)
    · rw [Bool.and_eq_true] at c1; exact hhi c1.2 (Option.some.inj h)
    · rw [Bool.and_eq_true] at c1; exact hlo c1.1 (Option.some.inj h)
    · rw [Bool.and_eq_true] at c1; exact hhi c1.2 (Option.some.inj h)
    · exact hlo c5 (Option.some.inj h)
    · exact hhi c6 (Option.some.inj h)
    · obtain ⟨h1, h2, h3, h4⟩ := ih (k0 + 1) h
      exact ⟨h1, h2, h3, by omega⟩

theorem pow2_mul_pow10 (a : Int) (K : Nat) (ha : 0 ≤ a + K) :
    pow2 a * 10 ^ K = ((2 ^ (a + K).toNat * 5 ^ K : Nat) : ℚ) := by
  have e1 : (((a + K).toNat : Int)) = a + K := Int.toNat_of_nonneg ha
  have h10 : (10 : ℚ) ^ K = 2 ^ K * 5 ^ K := by
    rw [← mul_pow]; norm_num
  have h2 : (2 : ℚ) ^ a * 2 ^ K = 2 ^ (a + K).toNat := by
    rw [← zpow_natCast (2 : ℚ) K, ← zpow_add₀ (by norm_num : (2 : ℚ) ≠ 0),
      ← zpow_natCast (2 : ℚ) (a + K).toNat, e1]
  rw [pow2_eq, h10, ← mul_assoc, h2]
  push_cast
  rfl

theorem pow10_mul_neg (K : Nat) : (10 : ℚ) ^ K * pow10 (-(K : Int)) = 1 := by
  rw [pow10_eq, zpow_neg, zpow_natCast]
  exact mul_inv_cancel₀ (pow_ne_zero _ (by norm_num))

/-- A positive binary64 value is a whole number of units of `10^(-1074)`. -/
theorem binary64_decimal (x : ℚ) (hx : 0 < x) (h : round64 x = .fin x) :
    ∃ N : Nat, 0 < N ∧ x * 10 ^ 1074 = (N : ℚ) := by
  unfold round64 at h
  simp only at h
  rw [if_neg (ne_of_gt hx)] at h
  split_ifs at h with hov
  injection h with h
  have he : (-1022 : Int) ≤ max (ilog2 x) (-1022) := le_max_right _ _
  generalize max (ilog2 x) (-1022) = e at h he
  have hm : 0 ≤ roundHalfEven (x / pow2 (e - 52)) :=
    roundHalfEven_nonneg _ (div_nonneg hx.le (pow2_pos _).le)
  generalize roundHalfEven (x / pow2 (e - 52)) = m at h hm
  have hpow := pow2_mul_pow10 (e - 52) 1074 (by push_cast; omega)
  refine ⟨m.toNat * (2 ^ (e - 52 + (1074 : Nat)).toNat * 5 ^ 1074), ?_, ?_⟩
  · have hmpos : 0 < m := by
      rcases lt_or_eq_of_le hm with hlt | heq
      · exact hlt
      · rw [← heq] at h
        rw [Int.cast_zero, zero_mul] at h
        linarith
    have h1 : 0 < m.toNat := by omega
    have h2 : 0 < 2 ^ (e - 52 + (1074 : Nat)).toNat := Nat.pow_pos (by decide)
    have h3 : ∀ K : Nat, 0 < 5 ^ K := fun K => Nat.pow_pos (by decide)
    exact Nat.mul_pos h1 (Nat.mul_pos h2 (h3 _))
  · rw [← h, mul_assoc, hpow]
    have hmc : ((m.toNat : Nat) : ℚ) = (m : ℚ) := by
      have := Int.toNat_of_nonneg hm
      exact_mod_cast congrArg (fun z : ℤ => (z : ℚ)) this
    rw [Nat.cast_mul m.toNat, hmc]

/-- The integers chosen by step 5 of `Number::toString` for a positive binary64 value
denote it: `s` has `k` digits and `s * 10^(n-k)` rounds to `x`. -/
theorem shortestDigits_spec (x : ℚ) (hx : 0 < x) (h : round64 x = .fin x) :
    0 < (shortestDigits x).1 ∧
      (natDigits (shortestDigits x).1).length = (shortestDigits x).2.2 ∧
      round64 (((shortestDigits x).1 : ℚ)
        * pow10 ((shortestDigits x).2.1 - (shortestDigits x).2.2)) = .fin x := by
  unfold shortestDigits
  simp only
  by_cases c1 : round64 (pow10 (decExp x)) = .fin x
  · rw [if_pos c1]
    refine ⟨Nat.one_pos, ?_, ?_⟩
    · rw [natDigits_lt 1 (by norm_num)]
      rfl
    · rw [Nat.cast_one, one_mul, Nat.cast_one, add_sub_cancel_right]
      exact c1
  · rw [if_neg c1]
    cases hsf : shortestFuel x (decExp x) 17 1 with
    | some p =>
      obtain ⟨s, k⟩ := p
      obtain ⟨h1, h2, h3, h4⟩ := shortestFuel_spec x (decExp x) 17 1 s k hsf
      have hpos : 0 < s := lt_of_lt_of_le (Nat.pow_pos (by decide)) h1
      exact ⟨hpos, natDigits_length s k h4 h1 h2, h3⟩
    | none =>
      obtain ⟨N, hN, hxN⟩ := binary64_decimal x hx h
      have hfl : (Rat.floor (x * 10 ^ 1074)).toNat = N := by
        rw [hxN]
        have hfl' : Rat.floor ((N : ℚ)) = (N : ℤ) := Int.floor_natCast (α := ℚ) N
        rw [hfl']
        exact Int.toNat_natCast N
      show 0 < (Rat.floor (x * 10 ^ 1074)).toNat ∧
        (natDigits (Rat.floor (x * 10 ^ 1074)).toNat).length
          = (natDigits (Rat.floor (x * 10 ^ 1074)).toNat).length ∧
        round64 ((((Rat.floor (x * 10 ^ 1074)).toNat : Nat) : ℚ)
          * pow10 (((natDigits (Rat.floor (x * 10 ^ 1074)).toNat).length : Int) - 1074
            - ((natDigits (Rat.floor (x * 10 ^ 1074)).toNat).length : Int))) = .fin x
      rw [hfl]
      refine ⟨hN, rfl, ?_⟩
      have e1 : ((natDigits N).length : Int) - 1074 - ((natDigits N).length : Int)
          = -((1074 : Nat) : Int) := by
        push_cast
        ring
      rw [e1, ← hxN, mul_assoc, pow10_mul_neg, mul_one]
      exact h

/-! ## Rounding twice: the results of the arithmetic are binary64 values -/

theorem log2Fuel_spec (fuel n : Nat) (h1 : 1 ≤ n) (hf : n ≤ fuel) :
    2 ^ log2Fuel fuel n ≤ n ∧ n < 2 ^ (log2Fuel fuel n + 1) := by
  induction fuel generalizing n with
  | zero => omega
  | succ fuel ih =>
    unfold log2Fuel
    by_cases h2 : n < 2
    · rw [if_pos h2]
      have : n = 1 := by omega
      subst this
      norm_num
    · rw [if_neg h2]
      obtain ⟨ha, hb⟩ := ih (n / 2) (by omega) (by omega)
      rw [pow_succ] at hb ⊢
      rw [pow_succ]
      constructor <;> omega

theorem ilog2_spec (q : ℚ) (hq : q ≠ 0) :
    pow2 (ilog2 q) ≤ |q| ∧ |q| < pow2 (ilog2 q + 1) := by
  unfold ilog2
  simp only
  have hn : 1 ≤ q.num.natAbs := by
    have : q.num ≠ 0 := Rat.num_ne_zero.mpr hq
    omega
  have hd : 1 ≤ q.den := q.den_pos
  obtain ⟨a1, a2⟩ := log2Fuel_spec q.num.natAbs q.num.natAbs hn le_rfl
  obtain ⟨b1, b2⟩ := log2Fuel_spec q.den q.den hd le_rfl
  have habs : |q| = (q.num.natAbs : ℚ) / (q.den : ℚ) := by
    conv_lhs => rw [← Rat.num_div_den q]
    rw [abs_div, Nat.abs_cast]
    congr 1
    rw [← Int.cast_abs, ← Int.natCast_natAbs, Int.cast_natCast]
  generalize log2Fuel q.num.natAbs q.num.natAbs = a at a1 a2
  generalize log2Fuel q.den q.den = b at b1 b2
  have hdq : (0 : ℚ) < q.den := by exact_mod_cast hd
  have a1' : (2 : ℚ) ^ (a : ℤ) ≤ q.num.natAbs := by
    rw [zpow_natCast]; exact_mod_cast a1
  have a2' : (q.num.natAbs : ℚ) < (2 : ℚ) ^ ((a : ℤ) + 1) := by
    rw [show ((a : ℤ) + 1) = ((a + 1 : ℕ) : ℤ) by push_cast; ring, zpow_natCast]
    exact_mod_cast a2
  have b1' : (2 : ℚ) ^ (b : ℤ) ≤ q.den := by
    rw [zpow_natCast]; exact_mod_cast b1
  have b2' : (q.den : ℚ) < (2 : ℚ) ^ ((b : ℤ) + 1) := by
    rw [show ((b : ℤ) + 1) = ((b + 1 : ℕ) : ℤ) by push_cast; ring, zpow_natCast]
    exact_mod_cast b2
  have h2 : (2 : ℚ) ≠ 0 := by norm_num
  have pb : (0 : ℚ) < 2 ^ (b : ℤ) := zpow_pos (by norm_num) _
  have pb1 : (0 : ℚ) < 2 ^ ((b : ℤ) + 1) := zpow_pos (by norm_num) _
  -- the quotient lies strictly between `2^(a-b-1)` and `2^(a-b+1)`
  have hup : |q| < (2 : ℚ) ^ ((a : ℤ) - b + 1) := by
    rw [habs, div_lt_iff₀ hdq]
    calc (q.num.natAbs : ℚ) < 2 ^ ((a : ℤ) + 1) := a2'
      _ = 2 ^ ((a : ℤ) - b + 1) * 2 ^ (b : ℤ) := by
        rw [← zpow_add₀ h2]; congr 1; ring
      _ ≤ 2 ^ ((a : ℤ) - b + 1) * q.den :=
        mul_le_mul_of_nonneg_left b1' (zpow_pos (by norm_num) _).le
  have hlow : (2 : ℚ) ^ ((a : ℤ) - b - 1) < |q| := by
    rw [habs, lt_div_iff₀ hdq]
    calc (2 : ℚ) ^ ((a : ℤ) - b - 1) * q.den
        < 2 ^ ((a : ℤ) - b - 1) * 2 ^ ((b : ℤ) + 1) :=
          mul_lt_mul_of_pos_left b2' (zpow_pos (by norm_num) _)
      _ = 2 ^ (a : ℤ) := by
        rw [← zpow_add₀ h2]; congr 1; ring
      _ ≤ q.num.natAbs := a1'
  by_cases hc : pow2 ((a : ℤ) - b) ≤ |q|
  · rw [if_pos hc]
    exact ⟨hc, by rw [pow2_eq]; exact hup⟩
  · rw [if_neg hc]
    constructor
    · rw [pow2_eq]; exact hlow.le
    · rw [show (a : ℤ) - b - 1 + 1 = (a : ℤ) - b by ring]
      exact not_le.mp hc

theorem roundHalfEven_le (x : ℚ) : (roundHalfEven x : ℚ) ≤ x + 1 / 2 ∧
    x - 1 / 2 ≤ (roundHalfEven x : ℚ) := by
  have hf1 : ((Rat.floor x : ℤ) : ℚ) ≤ x := Rat.le_floor.mp le_rfl
  have hf2 : x < (Rat.floor x : ℤ) + 1 := Int.lt_floor_add_one x
  unfold roundHalfEven
  simp only
  split_ifs with c1 c2 c3
  · constructor <;> linarith
  · constructor <;> push_cast <;> linarith
  · constructor <;> linarith
  · constructor <;> push_cast <;> linarith

theorem roundHalfEven_intCast (z : ℤ) : roundHalfEven (z : ℚ) = z := by
  have hfl : Rat.floor (z : ℚ) = z := Int.floor_intCast (α := ℚ) z
  unfold roundHalfEven
  simp only [hfl, sub_self]
  norm_num

theorem round64_zero : round64 0 = .fin 0 := by
  unfold round64
  rw [if_pos rfl]

/-- A value that `round64` returns is a binary64 value: rounding it again changes
nothing. -/
theorem round64_idem (x r : ℚ) (h : round64 x = .fin r) : round64 r = .fin r := by
  by_cases hr0 : r = 0
  · rw [hr0]; exact round64_zero
  have hx0 : x ≠ 0 := by
    rintro rfl
    rw [round64_zero] at h
    injection h with h
    exact hr0 h.symm
  have h2 : (2 : ℚ) ≠ 0 := by norm_num
  have h2lt : (1 : ℚ) < 2 := by norm_num
  -- the shape of `r`
  unfold round64 at h
  simp only at h
  rw [if_neg hx0] at h
  have he : (-1022 : Int) ≤ max (ilog2 x) (-1022) := le_max_right _ _
  have hex : ilog2 x ≤ max (ilog2 x) (-1022) := le_max_left _ _
  generalize max (ilog2 x) (-1022) = e at h he hex
  split_ifs at h with hov
  injection h with h
  generalize hm : roundHalfEven (x / pow2 (e - 52)) = m at h hov
  have hu : (0 : ℚ) < pow2 (e - 52) := pow2_pos _
  -- `|m| ≤ 2^53`
  have hxlt : |x| < pow2 (e + 1) := by
    refine lt_of_lt_of_le (ilog2_spec x hx0).2 ?_
    rw [pow2_eq, pow2_eq]
    exact zpow_le_zpow_right₀ h2lt.le (by omega)
  have hsplit : pow2 (e + 1) = 2 ^ 53 * pow2 (e - 52) := by
    rw [pow2_eq, pow2_eq, ← zpow_natCast (2 : ℚ) 53, ← zpow_add₀ h2]
    congr 1
    push_cast
    ring
  have hquo : |x / pow2 (e - 52)| < 2 ^ 53 := by
    rw [abs_div, abs_of_pos hu, div_lt_iff₀ hu, ← hsplit]
    exact hxlt
  have hmabs : |m| ≤ 2 ^ 53 := by
    have hb := roundHalfEven_le (x / pow2 (e - 52))
    rw [hm] at hb
    have hq := abs_lt.mp hquo
    rw [abs_le]
    constructor
    · have : (-(2 : ℚ) ^ 53 - 1) < (m : ℚ) := by linarith [hb.2, hq.1]
      have : ((-(2 : ℤ) ^ 53 - 1 : ℤ) : ℚ) < (m : ℚ) := by push_cast; linarith
      have := Int.cast_lt.mp this
      omega
    · have : (m : ℚ) < (2 : ℚ) ^ 53 + 1 := by linarith [hb.1, hq.2]
      have : (m : ℚ) < (((2 : ℤ) ^ 53 + 1 : ℤ) : ℚ) := by push_cast; linarith
      have := Int.cast_lt.mp this
      omega
  have hrabs : |r| ≤ pow2 (e + 1) := by
    rw [← h, abs_mul, abs_of_pos hu, hsplit]
    refine mul_le_mul_of_nonneg_right ?_ hu.le
    have : ((|m| : ℤ) : ℚ) ≤ (((2 : ℤ) ^ 53 : ℤ) : ℚ) := Int.cast_le.mpr hmabs
    rw [Int.cast_abs] at this
    push_cast at this
    exact this
  -- the exponent of `r`
  obtain ⟨hl1, hl2⟩ := ilog2_spec r hr0
  have hle : ilog2 r ≤ e + 1 := by
    by_contra hcon
    have hlt : e + 1 < ilog2 r := not_le.mp hcon
    have : pow2 (e + 1) < pow2 (ilog2 r) := by
      rw [pow2_eq, pow2_eq]
      exact zpow_lt_zpow_right₀ h2lt hlt
    linarith
  -- `r` is a whole number of units of its own exponent
  have hmaxc : (max (ilog2 r) (-1022) = ilog2 r ∨ max (ilog2 r) (-1022) = -1022) ∧
      ilog2 r ≤ max (ilog2 r) (-1022) := by
    refine ⟨?_, le_max_left _ _⟩
    rcases max_cases (ilog2 r) (-1022) with ⟨h1, _⟩ | ⟨h1, _⟩
    · exact Or.inl h1
    · exact Or.inr h1
  have hov' : ¬ pow2 1024 ≤ |r| := by rw [← h]; exact hov
  have key : ((roundHalfEven (r / pow2 (max (ilog2 r) (-1022) - 52)) : ℤ) : ℚ)
      * pow2 (max (ilog2 r) (-1022) - 52) = r := by
    generalize max (ilog2 r) (-1022) = e' at hmaxc ⊢
    have hint : ∃ M : ℤ, r / pow2 (e' - 52) = (M : ℚ) := by
      by_cases hcase : e' ≤ e
      · refine ⟨m * 2 ^ (e - e').toNat, ?_⟩
        have e1 : (((e - e').toNat : Int)) = e - e' := Int.toNat_of_nonneg (by omega)
        have hpw : pow2 (e - 52) = 2 ^ (e - e').toNat * pow2 (e' - 52) := by
          rw [pow2_eq, pow2_eq, ← zpow_natCast (2 : ℚ), e1, ← zpow_add₀ h2]
          congr 1
          ring
        calc r / pow2 (e' - 52) = (m : ℚ) * pow2 (e - 52) / pow2 (e' - 52) := by rw [h]
          _ = (m : ℚ) * 2 ^ (e - e').toNat := by
            rw [hpw, ← mul_assoc, mul_div_assoc, div_self (ne_of_gt (pow2_pos _)), mul_one]
          _ = ((m * 2 ^ (e - e').toNat : ℤ) : ℚ) := by push_cast; rfl
      · have hmax : e' = e + 1 := by
          rcases hmaxc.1 with h1 | h1 <;> omega
        have hil : ilog2 r = e + 1 := by
          rcases hmaxc.1 with h1 | h1 <;> omega
        rw [hil] at hl1
        have hreq : |r| = pow2 (e + 1) := le_antisymm hrabs hl1
        have hmeq : |(m : ℚ)| = 2 ^ 53 := by
          rw [← h, abs_mul, abs_of_pos hu, hsplit] at hreq
          exact mul_right_cancel₀ (ne_of_gt hu) hreq
        have hpw : pow2 (e' - 52) = 2 * pow2 (e - 52) := by
          rw [hmax, pow2_eq, pow2_eq, show e + 1 - 52 = 1 + (e - 52) by ring, zpow_add₀ h2,
            zpow_one]
        rcases abs_cases (m : ℚ) with ⟨h1, _⟩ | ⟨h1, _⟩
        · refine ⟨2 ^ 52, ?_⟩
          have hm2 : (m : ℚ) = 2 ^ 53 := by rw [← h1, hmeq]
          calc r / pow2 (e' - 52) = (m : ℚ) * pow2 (e - 52) / pow2 (e' - 52) := by rw [h]
            _ = ((2 ^ 52 : ℤ) : ℚ) := by
              rw [hpw, hm2]
              field_simp
              ring
        · refine ⟨-2 ^ 52, ?_⟩
          have hm2 : (m : ℚ) = -2 ^ 53 := by linarith [hmeq]
          calc r / pow2 (e' - 52) = (m : ℚ) * pow2 (e - 52) / pow2 (e' - 52) := by rw [h]
            _ = ((-2 ^ 52 : ℤ) : ℚ) := by
              rw [hpw, hm2]
              field_simp
              ring
    obtain ⟨M, hM⟩ := hint
    rw [hM, roundHalfEven_intCast, ← hM, div_mul_cancel₀ _ (ne_of_gt (pow2_pos _))]
  unfold round64
  simp only
  rw [if_neg hr0, key, if_neg hov']

/-- A finite number that `parseFloat` returns is a binary64 value. -/
theorem parseFloat_finito64 (s : String) (q : ℚ) (h : parseFloat s = .fin q) :
    (parseFloat s).finito64 = true := by
  rw [h]
  simp only [JSNum.finito64, decide_eq_true_eq]
  unfold parseFloat at h
  simp only at h
  split_ifs at h
  all_goals
    split at h
    · cases h
    · exact round64_idem _ _ h

theorem toChars_fin (q : ℚ) :
    JSNum.toChars (.fin q)
      = if q = 0 then ['0'] else if q < 0 then '-' :: posToChars (-q) else posToChars q := rfl

/-- Reading back the text that `Number::toString` writes for a finite binary64 value. -/
theorem readNumber_toChars (q : ℚ) (hq : round64 q = .fin q) (rest : List Char)
    (h : fimNumero rest) :
    JSON.readNumber (JSNum.toChars (.fin q) ++ rest) = some (.fin q, rest) := by
  rw [toChars_fin]
  by_cases h0 : q = 0
  · rw [if_pos h0]
    have := readNumber_shape false ['0'] [] none rest (by decide) (by simp) (Or.inl rfl)
      (by simp) (by simp) h
    simp only [Bool.false_eq_true, if_false, List.nil_append, fracText, if_true, expText,
      List.append_nil, expVal, List.length_nil] at this
    rw [this, h0]
    have hv : (digitsVal 0 ['0'] : ℚ) * pow10 (0 - ((0 : Nat) : Int)) = 0 := by
      have : digitsVal 0 ['0'] = 0 := by decide
      rw [this]
      simp
    rw [hv]
    rfl
  · rw [if_neg h0]
    by_cases hneg : q < 0
    · rw [if_pos hneg]
      have hq' : round64 (-q) = .fin (-q) := round64_neg q q hq
      obtain ⟨hs, hk, hv⟩ := shortestDigits_spec (-q) (by linarith) hq'
      have := readNumber_formatDigits true _ (shortestDigits (-q)).2.1 _ rest hs hk h
      simp only [if_true, List.singleton_append] at this
      unfold posToChars
      rw [List.cons_append, this, round64_neg _ _ hv, neg_neg]
    · rw [if_neg hneg]
      have hpos : 0 < q := lt_of_le_of_ne (not_lt.mp hneg) (Ne.symm h0)
      obtain ⟨hs, hk, hv⟩ := shortestDigits_spec q hpos hq
      have := readNumber_formatDigits false _ (shortestDigits q).2.1 _ rest hs hk h
      simp only [Bool.false_eq_true, if_false, List.nil_append] at this
      unfold posToChars
      rw [this, hv]

/-- The text of a finite number starts with a digit or a minus sign. -/
theorem toChars_head (q : ℚ) (hq : round64 q = .fin q) :
    ∃ c t, JSNum.toChars (.fin q) = c :: t ∧ (isDigit c = true ∨ c = '-') := by
  rw [toChars_fin]
  by_cases h0 : q = 0
  · rw [if_pos h0]
    exact ⟨'0', [], rfl, Or.inl (by decide)⟩
  · rw [if_neg h0]
    by_cases hneg : q < 0
    · rw [if_pos hneg]
      exact ⟨'-', _, rfl, Or.inr rfl⟩
    · rw [if_neg hneg]
      have hpos : 0 < q := lt_of_le_of_ne (not_lt.mp hneg) (Ne.symm h0)
      obtain ⟨hs, hk, _⟩ := shortestDigits_spec q hpos hq
      obtain ⟨ip, fp, ex, htxt, hip, hne, _⟩ :=
        formatDigits_shape _ (shortestDigits q).2.1 _ hs hk
      obtain ⟨c0, t0, rfl⟩ := List.exists_cons_of_ne_nil hne
      unfold posToChars
      rw [htxt]
      exact ⟨c0, _, rfl, Or.inl (hip c0 (List.mem_cons_self _ _))⟩

/-! ## Strings: reading back what `QuoteJSONString` writes -/

theorem readUnits_cons (c : Char) (r : List Char) :
    JSON.readUnits (c :: r) =
      if c = '\x22' then some ([], r)
      else if c = '\x5c' then
        match r with
        | [] => none
        | e :: r1 =>
          if e = 'u' then
            match r1 with
            | a :: b :: x :: d :: r2 =>
              match JSON.hex4 a b x d with
              | none => none
              | some n => (JSON.readUnits r2).map fun p => (n :: p.1, p.2)
            | _ => none
          else
            match JSON.escapeChar e with
            | none => none
            | some x => (JSON.readUnits r1).map fun p => (x.toNat :: p.1, p.2)
      else if c.toNat < 32 then none
      else (JSON.readUnits r).map fun p => (c.toNat :: p.1, p.2) := by
  rw [JSON.readUnits.eq_def]

theorem hex4_control : ∀ n, n < 32 →
    JSON.hex4 '0' '0' (JSON.hexChar (n / 16)) (JSON.hexChar (n % 16)) = some n := by
  decide

theorem readUnits_quoteChar (c : Char) (r : List Char) :
    JSON.readUnits (JSON.quoteChar c ++ r) =
      (JSON.readUnits r).map fun p => (c.toNat :: p.1, p.2) := by
  unfold JSON.quoteChar
  split_ifs with h1 h2 h3 h4 h5 h6 h7 h8
  · subst h1; rw [List.cons_append, readUnits_cons]; rfl
  · subst h2; rw [List.cons_append, readUnits_cons]; rfl
  · subst h3; rw [List.cons_append, readUnits_cons]; rfl
  · subst h4; rw [List.cons_append, readUnits_cons]; rfl
  · subst h5; rw [List.cons_append, readUnits_cons]; rfl
  · subst h6; rw [List.cons_append, readUnits_cons]; rfl
  · subst h7; rw [List.cons_append, readUnits_cons]; rfl
  · rw [List.cons_append, readUnits_cons]
    simp only [List.cons_append, List.nil_append, if_true, hex4_control c.toNat h8]
    rw [if_neg (by decide)]
  · rw [List.singleton_append, readUnits_cons, if_neg h6, if_neg h7, if_neg h8]

theorem readUnits_quote (cs rest : List Char) :
    JSON.readUnits (cs.flatMap JSON.quoteChar ++ '\x22' :: rest)
      = some (cs.map Char.toNat, rest) := by
  induction cs with
  | nil =>
    simp only [List.flatMap_nil, List.nil_append, List.map_nil]
    rw [readUnits_cons, if_pos rfl]
  | cons c cs ih =>
    rw [List.flatMap_cons, List.append_assoc, readUnits_quoteChar, ih]
    rfl

theorem combineUnits_chars (cs : List Char) :
    JSON.combineUnits none (cs.map Char.toNat) = cs := by
  induction cs with
  | nil => rfl
  | cons c cs ih =>
    have hv : ¬ (55296 ≤ c.toNat ∧ c.toNat < 56320) := by
      have := c.valid
      simp only [UInt32.isValidChar, Nat.isValidChar] at this
      have e : c.toNat = c.val.toNat := rfl
      omega
    simp only [List.map_cons, JSON.combineUnits]
    rw [if_neg hv, ih, Char.ofNat_toNat]

/-- Reading back a quoted string, after its opening quote. -/
theorem readString_quote (s : String) (rest : List Char) :
    JSON.readString (s.toList.flatMap JSON.quoteChar ++ '\x22' :: rest) = some (s, rest) := by
  unfold JSON.readString
  rw [readUnits_quote, Option.map_some', combineUnits_chars]
  rfl

theorem quote_eq (s : String) (rest : List Char) :
    JSON.quote s ++ rest = '\x22' :: (s.toList.flatMap JSON.quoteChar ++ '\x22' :: rest) := by
  simp [JSON.quote]

/-! ## Values: reading back what `JSON.stringify` writes -/

theorem dropLeading_cons_of_not (p : Char → Bool) (c : Char) (r : List Char)
    (h : p c = false) : dropLeading p (c :: r) = c :: r := by
  simp [dropLeading, h]

theorem fimNumero_cons (c : Char) (r : List Char)
    (h : c = ',' ∨ c = ']' ∨ c = '\x7d') : fimNumero (c :: r) := by
  intro d t hd
  injection hd with h1 h2
  subst h1
  rcases h with h | h | h <;> subst h <;> decide

theorem isDigit_props (c : Char) (h : isDigit c = true ∨ c = '-') :
    JSON.isWhite c = false ∧ c ≠ 'n' ∧ c ≠ 't' ∧ c ≠ 'f' ∧ c ≠ '\x22' ∧ c ≠ '[' ∧ c ≠ '\x7b' ∧
      c ≠ ']' := by
  rcases h with h | h
  · simp only [isDigit, decide_eq_true_eq] at h
    refine ⟨?_, ?_, ?_, ?_, ?_, ?_, ?_, ?_⟩
    · simp only [JSON.isWhite, Bool.or_eq_false_iff, decide_eq_false_iff_not]
      refine ⟨⟨⟨?_, ?_⟩, ?_⟩, ?_⟩ <;> rintro rfl <;> revert h <;> decide
    all_goals rintro rfl; revert h; decide
  · subst h
    decide

/-- The text of a value starts with a character that is neither white space nor a closing
bracket. -/
theorem write_head (v : JSVal) (hv : v.estavel = true) :
    ∃ c t, JSON.write v = c :: t ∧ JSON.isWhite c = false ∧ c ≠ ']' := by
  cases v with
  | null => exact ⟨'n', _, rfl, by decide, by decide⟩
  | bool b => cases b <;> exact ⟨_, _, rfl, by decide, by decide⟩
  | num x =>
    cases x with
    | fin q =>
      simp only [JSVal.estavel, decide_eq_true_eq] at hv
      obtain ⟨c, t, hct, hc⟩ := toChars_head q hv
      have := isDigit_props c hc
      exact ⟨c, t, by rw [JSON.write, hct], this.1, this.2.2.2.2.2.2.2⟩
    | nan => simp [JSVal.estavel] at hv
    | pinf => simp [JSVal.estavel] at hv
    | ninf => simp [JSVal.estavel] at hv
  | str s => exact ⟨'\x22', _, rfl, by decide, by decide⟩
  | arr xs => exact ⟨'[', _, by rw [JSON.write], by decide, by decide⟩
  | obj ps => exact ⟨'\x7b', _, by rw [JSON.write], by decide, by decide⟩

theorem setProp_new (k : String) (v : JSVal) (ps : List (String × JSVal))
    (hk : ∀ p ∈ ps, p.1 ≠ k) (hidx : JSON.arrayIndex k = none) :
    JSON.setProp k v ps = ps ++ [(k, v)] := by
  unfold JSON.setProp
  have : ps.any (fun p => decide (p.1 = k)) = false := by
    rw [List.any_eq_false]
    intro p hp
    simpa using hk p hp
  rw [this, hidx]
  rfl

theorem foldl_setProp (ps acc : List (String × JSVal))
    (h : chavesSimples ((acc ++ ps).map fun p => p.1) = true) :
    ps.foldl (fun ps m => JSON.setProp m.1 m.2 ps) acc = acc ++ ps := by
  induction ps generalizing acc with
  | nil => simp
  | cons m ps ih =>
    have h' := h
    simp only [chavesSimples, Bool.and_eq_true, decide_eq_true_eq, List.all_eq_true] at h'
    obtain ⟨hnd, hidx⟩ := h'
    have hk : ∀ p ∈ acc, p.1 ≠ m.1 := by
      intro p hp he
      rw [List.map_append, List.map_cons, List.nodup_append] at hnd
      exact hnd.2.2 (List.mem_map_of_mem _ hp) (by rw [he]; exact List.mem_cons_self _ _)
    have hm : JSON.arrayIndex m.1 = none :=
      hidx m.1 (by
        rw [List.map_append, List.map_cons]
        exact List.mem_append_right _ (List.mem_cons_self _ _))
    rw [List.foldl_cons, setProp_new m.1 m.2 acc hk hm]
    have e : acc ++ [(m.1, m.2)] ++ ps = acc ++ m :: ps := by simp
    rw [ih (acc ++ [(m.1, m.2)]) (by rw [e]; exact h), e]

theorem readValue_succ (fuel : Nat) (c : Char) (r : List Char) (hc : JSON.isWhite c = false) :
    JSON.readValue (fuel + 1) (c :: r) =
      if c = 'n' then (JSON.afterWord "ull".toList r).map fun r1 => (.null, r1)
      else if c = 't' then (JSON.afterWord "rue".toList r).map fun r1 => (.bool true, r1)
      else if c = 'f' then (JSON.afterWord "alse".toList r).map fun r1 => (.bool false, r1)
      else if c = '\x22' then (JSON.readString r).map fun p => (.str p.1, p.2)
      else if c = '[' then
        if startsWith ']' (dropLeading JSON.isWhite r) then
          some (.arr [], (dropLeading JSON.isWhite r).tail)
        else (JSON.readElems fuel r).map fun p => (.arr p.1, p.2)
      else if c = '\x7b' then
        if startsWith '\x7d' (dropLeading JSON.isWhite r) then
          some (.obj [], (dropLeading JSON.isWhite r).tail)
        else (JSON.readMembers fuel r).map fun p =>
          (.obj (p.1.foldl (fun ps m => JSON.setProp m.1 m.2 ps) []), p.2)
      else (JSON.readNumber (c :: r)).map fun p => (.num p.1, p.2) := by
  rw [JSON.readValue, dropLeading_cons_of_not _ c r hc]

theorem readElems_succ (fuel : Nat) (cs : List Char) :
    JSON.readElems (fuel + 1) cs =
      match JSON.readValue fuel cs with
      | none => none
      | some (v, r) =>
        if startsWith ',' (dropLeading JSON.isWhite r) then
          (JSON.readElems fuel (dropLeading JSON.isWhite r).tail).map fun p => (v :: p.1, p.2)
        else if startsWith ']' (dropLeading JSON.isWhite r) then
          some ([v], (dropLeading JSON.isWhite r).tail)
        else none := by
  rw [JSON.readElems]

theorem readMembers_succ (fuel : Nat) (cs : List Char) :
    JSON.readMembers (fuel + 1) cs =
      if startsWith '\x22' (dropLeading JSON.isWhite cs) then
        match JSON.readString (dropLeading JSON.isWhite cs).tail with
        | none => none
        | some (k, r1) =>
          if startsWith ':' (dropLeading JSON.isWhite r1) then
            match JSON.readValue fuel (dropLeading JSON.isWhite r1).tail with
            | none => none
            | some (v, r3) =>
              if startsWith ',' (dropLeading JSON.isWhite r3) then
                (JSON.readMembers fuel (dropLeading JSON.isWhite r3).tail).map fun p =>
                  ((k, v) :: p.1, p.2)
              else if startsWith '\x7d' (dropLeading JSON.isWhite r3) then
                some ([(k, v)], (dropLeading JSON.isWhite r3).tail)
              else none
          else none
      else none := by
  rw [JSON.readMembers]

theorem writeElems_head (x : JSVal) (xs : List JSVal) (hx : x.estavel = true) (rest : List Char) :
    ∃ c t, JSON.writeElems (x :: xs) ++ rest = c :: t ∧ JSON.isWhite c = false ∧ c ≠ ']' := by
  obtain ⟨c, t, hct, hw, hb⟩ := write_head x hx
  cases xs with
  | nil => exact ⟨c, t ++ rest, by rw [JSON.writeElems, hct]; rfl, hw, hb⟩
  | cons y ys => exact ⟨c, _, by rw [JSON.writeElems, hct]; rfl, hw, hb⟩

theorem writeMembers_cons (k : String) (x : JSVal) (ps : List (String × JSVal))
    (rest : List Char) :
    JSON.writeMembers ((k, x) :: ps) ++ '\x7d' :: rest =
      '\x22' :: (k.toList.flatMap JSON.quoteChar ++ '\x22' :: ':' :: (JSON.write x ++
        (match ps with
          | [] => '\x7d' :: rest
          | p :: ps' => ',' :: (JSON.writeMembers (p :: ps') ++ '\x7d' :: rest)))) := by
  cases ps with
  | nil => simp [JSON.writeMembers, JSON.quote]
  | cons p ps' =>
    obtain ⟨k', x'⟩ := p
    simp [JSON.writeMembers, JSON.quote]

mutual
/-- Reading back the text of a value that is written without loss. -/
theorem readValue_write : (v : JSVal) → v.estavel = true → ∀ (fuel : Nat) (rest : List Char),
    v.custo ≤ fuel → fimNumero rest →
    JSON.readValue fuel (JSON.write v ++ rest) = some (v, rest)
  | .null, _, fuel, rest, hf, _ => by
    obtain ⟨f, rfl⟩ : ∃ f, fuel = f + 1 := ⟨fuel - 1, by simp [JSVal.custo] at hf; omega⟩
    show JSON.readValue (f + 1) ('n' :: 'u' :: 'l' :: 'l' :: rest) = _
    rw [readValue_succ _ _ _ (by decide)]
    simp [JSON.afterWord, List.isPrefixOf]
  | .bool true, _, fuel, rest, hf, _ => by
    obtain ⟨f, rfl⟩ : ∃ f, fuel = f + 1 := ⟨fuel - 1, by simp [JSVal.custo] at hf; omega⟩
    show JSON.readValue (f + 1) ('t' :: 'r' :: 'u' :: 'e' :: rest) = _
    rw [readValue_succ _ _ _ (by decide)]
    simp [JSON.afterWord, List.isPrefixOf]
  | .bool false, _, fuel, rest, hf, _ => by
    obtain ⟨f, rfl⟩ : ∃ f, fuel = f + 1 := ⟨fuel - 1, by simp [JSVal.custo] at hf; omega⟩
    show JSON.readValue (f + 1) ('f' :: 'a' :: 'l' :: 's' :: 'e' :: rest) = _
    rw [readValue_succ _ _ _ (by decide)]
    simp [JSON.afterWord, List.isPrefixOf]
  | .num (.fin q), hv, fuel, rest, hf, hr => by
    obtain ⟨f, rfl⟩ : ∃ f, fuel = f + 1 := ⟨fuel - 1, by simp [JSVal.custo] at hf; omega⟩
    simp only [JSVal.estavel, decide_eq_true_eq] at hv
    obtain ⟨c, t, hct, hc⟩ := toChars_head q hv
    obtain ⟨h1, h2, h3, h4, h5, h6, h7, _⟩ := isDigit_props c hc
    have hread := readNumber_toChars q hv rest hr
    rw [JSON.write, hct, List.cons_append, readValue_succ _ _ _ h1, if_neg h2, if_neg h3,
      if_neg h4, if_neg h5, if_neg h6, if_neg h7]
    rw [hct, List.cons_append] at hread
    rw [hread]
    rfl
  | .num .nan, hv, _, _, _, _ => by simp [JSVal.estavel] at hv
  | .num .pinf, hv, _, _, _, _ => by simp [JSVal.estavel] at hv
  | .num .ninf, hv, _, _, _, _ => by simp [JSVal.estavel] at hv
  | .str s, _, fuel, rest, hf, _ => by
    obtain ⟨f, rfl⟩ : ∃ f, fuel = f + 1 := ⟨fuel - 1, by simp [JSVal.custo] at hf; omega⟩
    rw [JSON.write, quote_eq, readValue_succ _ _ _ (by decide), if_neg (by decide),
      if_neg (by decide), if_neg (by decide), if_pos rfl, readString_quote]
    rfl
  | .arr xs, hv, fuel, rest, hf, hr => by
    obtain ⟨f, rfl⟩ : ∃ f, fuel = f + 1 := ⟨fuel - 1, by simp [JSVal.custo] at hf; omega⟩
    have ih := readElems_writeElems xs
    rw [JSON.write, List.cons_append, List.append_assoc, List.singleton_append,
      readValue_succ _ _ _ (by decide), if_neg (by decide), if_neg (by decide),
      if_neg (by decide), if_neg (by decide), if_pos rfl]
    cases xs with
    | nil =>
      simp [JSON.writeElems, dropLeading, JSON.isWhite, startsWith_cons]
    | cons x xs =>
      simp only [JSVal.estavel] at hv
      have hx : x.estavel = true := by
        simp only [JSVal.estavelLista, Bool.and_eq_true] at hv
        exact hv.1
      obtain ⟨c, t, hct, hw, hb⟩ := writeElems_head x xs hx (']' :: rest)
      have hsw : startsWith ']' (dropLeading JSON.isWhite
          (JSON.writeElems (x :: xs) ++ ']' :: rest)) = false := by
        rw [hct, dropLeading_cons_of_not _ c t hw, startsWith_cons]
        simpa using hb
      rw [hsw]
      simp only [Bool.false_eq_true, if_false]
      rw [ih (by simp) hv f rest (by simp only [JSVal.custo] at hf; omega)]
      rfl
  | .obj ps, hv, fuel, rest, hf, hr => by
    obtain ⟨f, rfl⟩ : ∃ f, fuel = f + 1 := ⟨fuel - 1, by simp [JSVal.custo] at hf; omega⟩
    have ih := readMembers_writeMembers ps
    rw [JSON.write, List.cons_append, List.append_assoc, List.singleton_append,
      readValue_succ _ _ _ (by decide), if_neg (by decide), if_neg (by decide),
      if_neg (by decide), if_neg (by decide), if_neg (by decide), if_pos rfl]
    simp only [JSVal.estavel, Bool.and_eq_true] at hv
    cases ps with
    | nil =>
      simp [JSON.writeMembers, dropLeading, JSON.isWhite, startsWith_cons]
    | cons p ps =>
      obtain ⟨k, x⟩ := p
      have hsw : startsWith '\x7d' (dropLeading JSON.isWhite
          (JSON.writeMembers ((k, x) :: ps) ++ '\x7d' :: rest)) = false := by
        rw [writeMembers_cons, dropLeading_cons_of_not _ _ _ (by decide), startsWith_cons]
        decide
      rw [hsw]
      simp only [Bool.false_eq_true, if_false]
      rw [ih (by simp) hv.2 f rest (by simp only [JSVal.custo] at hf; omega)]
      simp only [Option.map_some']
      rw [foldl_setProp _ [] (by simpa using hv.1)]
      rfl
/-- Reading back the texts of the elements of an array. -/
theorem readElems_writeElems : (xs : List JSVal) → xs ≠ [] → JSVal.estavelLista xs = true →
    ∀ (fuel : Nat) (rest : List Char), JSVal.custoLista xs ≤ fuel →
    JSON.readElems fuel (JSON.writeElems xs ++ ']' :: rest) = some (xs, rest)
  | [], h, _, _, _, _ => absurd rfl h
  | [x], _, hv, fuel, rest, hf => by
    obtain ⟨f, rfl⟩ : ∃ f, fuel = f + 1 := ⟨fuel - 1, by simp [JSVal.custoLista] at hf; omega⟩
    simp only [JSVal.estavelLista, Bool.and_eq_true] at hv
    have hx := readValue_write x hv.1 f (']' :: rest)
      (by simp only [JSVal.custoLista] at hf; omega) (fimNumero_cons _ _ (Or.inr (Or.inl rfl)))
    rw [readElems_succ, JSON.writeElems, hx]
    simp [dropLeading, JSON.isWhite, startsWith_cons]
  | x :: y :: xs, _, hv, fuel, rest, hf => by
    obtain ⟨f, rfl⟩ : ∃ f, fuel = f + 1 := ⟨fuel - 1, by simp [JSVal.custoLista] at hf; omega⟩
    simp only [JSVal.estavelLista, Bool.and_eq_true] at hv
    have hf' : max (JSVal.custo x) (JSVal.custoLista (y :: xs)) ≤ f := by
      simp only [JSVal.custoLista] at hf ⊢; omega
    have hx := readValue_write x hv.1 f (',' :: (JSON.writeElems (y :: xs) ++ ']' :: rest))
      (le_trans (le_max_left _ _) hf') (fimNumero_cons _ _ (Or.inl rfl))
    have hrec := readElems_writeElems (y :: xs) (by simp)
      (by simp only [JSVal.estavelLista, Bool.and_eq_true]; exact hv.2) f rest
      (le_trans (le_max_right _ _) hf')
    rw [readElems_succ, JSON.writeElems, List.append_assoc, List.cons_append, hx]
    simp only [dropLeading_cons_of_not JSON.isWhite ',' _ (by decide), startsWith_cons,
      decide_True, if_true, List.tail_cons]
    rw [hrec]
    rfl
/-- Reading back the texts of the members of an object. -/
theorem readMembers_writeMembers : (ps : List (String × JSVal)) → ps ≠ [] →
    JSVal.estavelProps ps = true →
    ∀ (fuel : Nat) (rest : List Char), JSVal.custoProps ps ≤ fuel →
    JSON.readMembers fuel (JSON.writeMembers ps ++ '\x7d' :: rest) = some (ps, rest)
  | [], h, _, _, _, _ => absurd rfl h
  | [(k, x)], _, hv, fuel, rest, hf => by
    obtain ⟨f, rfl⟩ : ∃ f, fuel = f + 1 := ⟨fuel - 1, by simp [JSVal.custoProps] at hf; omega⟩
    simp only [JSVal.estavelProps, Bool.and_eq_true] at hv
    have hx := readValue_write x hv.1 f ('\x7d' :: rest)
      (by simp only [JSVal.custoProps] at hf; omega)
      (fimNumero_cons _ _ (Or.inr (Or.inr rfl)))
    rw [readMembers_succ, writeMembers_cons, dropLeading_cons_of_not _ _ _ (by decide)]
    simp only [startsWith_cons, decide_True, if_true, List.tail_cons]
    rw [readString_quote]
    simp only [dropLeading_cons_of_not JSON.isWhite ':' _ (by decide), startsWith_cons,
      decide_True, if_true, List.tail_cons]
    rw [hx]
    simp [dropLeading, JSON.isWhite, startsWith_cons]
  | (k, x) :: q :: ps, _, hv, fuel, rest, hf => by
    obtain ⟨f, rfl⟩ : ∃ f, fuel = f + 1 := ⟨fuel - 1, by simp [JSVal.custoProps] at hf; omega⟩
    simp only [JSVal.estavelProps, Bool.and_eq_true] at hv
    have hf' : max (JSVal.custo x) (JSVal.custoProps (q :: ps)) ≤ f := by
      simp only [JSVal.custoProps] at hf ⊢; omega
    have hx := readValue_write x hv.1 f
      (',' :: (JSON.writeMembers (q :: ps) ++ '\x7d' :: rest))
      (le_trans (le_max_left _ _) hf') (fimNumero_cons _ _ (Or.inl rfl))
    have hrec := readMembers_writeMembers (q :: ps) (by simp)
      (by
        obtain ⟨k', x'⟩ := q
        simp only [JSVal.estavelProps, Bool.and_eq_true] at hv ⊢
        exact hv.2) f rest
      (le_trans (le_max_right _ _) hf')
    rw [readMembers_succ, writeMembers_cons, dropLeading_cons_of_not _ _ _ (by decide)]
    simp only [startsWith_cons, decide_True, if_true, List.tail_cons]
    rw [readString_quote]
    simp only [dropLeading_cons_of_not JSON.isWhite ':' _ (by decide), startsWith_cons,
      decide_True, if_true, List.tail_cons]
    rw [hx]
    simp only [dropLeading_cons_of_not JSON.isWhite ',' _ (by decide), startsWith_cons,
      decide_True, if_true, List.tail_cons]
    rw [hrec]
    rfl
end

mutual
theorem custo_le : (v : JSVal) → v.custo ≤ (JSON.write v).length + 1
  | .null => by simp [JSVal.custo]
  | .bool _ => by simp [JSVal.custo]
  | .num _ => by simp [JSVal.custo]
  | .str _ => by simp [JSVal.custo]
  | .arr xs => by
    have := custoLista_le xs
    rw [JSVal.custo, JSON.write]
    simp only [List.length_cons, List.length_append, List.length_nil]
    omega
  | .obj ps => by
    have := custoProps_le ps
    rw [JSVal.custo, JSON.write]
    simp only [List.length_cons, List.length_append, List.length_nil]
    omega
theorem custoLista_le : (xs : List JSVal) → JSVal.custoLista xs ≤ (JSON.writeElems xs).length + 2
  | [] => by simp [JSVal.custoLista]
  | [x] => by
    have := custo_le x
    simp only [JSVal.custoLista, JSON.writeElems]
    omega
  | x :: y :: xs => by
    have h1 := custo_le x
    have h2 := custoLista_le (y :: xs)
    rw [JSVal.custoLista, JSON.writeElems]
    simp only [List.length_cons, List.length_append]
    omega
theorem custoProps_le : (ps : List (String × JSVal)) →
    JSVal.custoProps ps ≤ (JSON.writeMembers ps).length + 2
  | [] => by simp [JSVal.custoProps]
  | [(k, x)] => by
    have := custo_le x
    simp only [JSVal.custoProps, JSON.writeMembers, List.length_cons, List.length_append]
    omega
  | (k, x) :: q :: ps => by
    have h1 := custo_le x
    have h2 := custoProps_le (q :: ps)
    rw [JSVal.custoProps, JSON.writeMembers]
    simp only [List.length_cons, List.length_append]
    omega
end

/-- The function `JSON.parse` returns every value that is written without loss from the text that
`JSON.stringify` writes for it. -/
theorem parse_stringify (v : JSVal) (hv : v.estavel = true) :
    JSON.parse (JSON.stringify v) = some v := by
  unfold JSON.parse JSON.stringify
  have hlen : (String.mk (JSON.write v)).length = (JSON.write v).length := rfl
  have hlist : (String.mk (JSON.write v)).toList = JSON.write v := rfl
  have hfuel : v.custo ≤ 2 * (JSON.write v).length + 2 := by
    have := custo_le v
    omega
  have hread := readValue_write v hv (2 * (JSON.write v).length + 2) [] hfuel
    (by intro c t h; cases h)
  rw [List.append_nil] at hread
  rw [hlen, hlist, hread]
  rfl

theorem stringify_ne_empty (xs : List JSVal) : JSON.stringify (.arr xs) ≠ "" := by
  intro h
  have := congrArg String.toList h
  simp [JSON.stringify, JSON.write] at this

theorem novoPaciente_estavel (ident : String) (f : FormData) (w h : JSNum) (imc : IMC)
    (hw : w.finito64 = true) (hh : h.finito64 = true) :
    (novoPaciente ident f w h imc).estavel = true := by
  have hk : chavesSimples ["id", "nome", "peso", "altura", "idade", "sexo", "telefone",
      "email", "endereco", "imc", "classificacao", "pesoIdeal"] = true := by decide
  cases w with
  | fin a =>
    cases h with
    | fin b =>
      simp only [JSNum.finito64] at hw hh
      simp only [novoPaciente, JSVal.estavel, JSVal.estavelProps, List.map_cons, List.map_nil,
        hk, hw, hh, Bool.and_self]
    | nan => simp [JSNum.finito64] at hh
    | pinf => simp [JSNum.finito64] at hh
    | ninf => simp [JSNum.finito64] at hh
  | nan => simp [JSNum.finito64] at hw
  | pinf => simp [JSNum.finito64] at hw
  | ninf => simp [JSNum.finito64] at hw

theorem estavelLista_of_forall (c : List JSVal) (h : ∀ p ∈ c, p.estavel = true) :
    JSVal.estavelLista c = true := by
  induction c with
  | nil => rfl
  | cons p c ih =>
    simp only [JSVal.estavelLista, Bool.and_eq_true]
    exact ⟨h p (List.mem_cons_self _ _), ih (fun q hq => h q (List.mem_cons_of_mem _ hq))⟩

/-- Saving and then loading a collection that is written without loss gives the same
collection. -/
theorem carregar_salvar_estavel (st : AppState) (c : List JSVal)
    (hc : (JSVal.arr c).estavel = true) :
    carregarPacientes false (salvarPacientes false (.arr c) st)
      = { st with pacientes := .arr c, armazenado := some (JSON.stringify (.arr c)) } := by
  simp only [carregarPacientes, salvarPacientes, Bool.false_eq_true, if_false]
  rw [if_neg (stringify_ne_empty c), parse_stringify _ hc]

/-- Claim C8 (counterexample). A form whose weight is a run of four hundred nines is valid:
the weight parses to `Infinity`, and the record is added with `peso` equal to `Infinity`.
`JSON.stringify` writes that number as `null`, so saving and loading gives a record whose
`peso` is `null`: the loaded collection differs from the saved one. -/
theorem peso_infinito_not_reloaded :
    (adicionarPaciente (JSNum.lit (1 / 2)) false estadoPesoEnorme).map (·.pacientes)
      = some (.arr [.obj [("id", .str "0.5"), ("nome", .str "Ana"), ("peso", .num .pinf),
          ("altura", .num (JSNum.lit (17 / 10))), ("idade", .str "30"),
          ("sexo", .str "feminino"), ("telefone", .str ""), ("email", .str ""),
          ("endereco", .str ""), ("imc", .str "Infinity"),
          ("classificacao", .str "Obesidade"), ("pesoIdeal", .str "60.00")]]) ∧
    (adicionarPaciente (JSNum.lit (1 / 2)) false estadoPesoEnorme).map
        (fun st => (carregarPacientes false (salvarPacientes false st.pacientes st)).pacientes)
      = some (.arr [.obj [("id", .str "0.5"), ("nome", .str "Ana"), ("peso", .null),
          ("altura", .num (JSNum.lit (17 / 10))), ("idade", .str "30"),
          ("sexo", .str "feminino"), ("telefone", .str ""), ("email", .str ""),
          ("endereco", .str ""), ("imc", .str "Infinity"),
          ("classificacao", .str "Obesidade"), ("pesoIdeal", .str "60.00")]]) ∧
    (adicionarPaciente (JSNum.lit (1 / 2)) false estadoPesoEnorme).map
        (fun st => (carregarPacientes false (salvarPacientes false st.pacientes st)).pacientes)
      ≠ (adicionarPaciente (JSNum.lit (1 / 2)) false estadoPesoEnorme).map (·.pacientes) := by
  decide!

/-- Claim C8 (amended). For every sequence of patient records, built as `adicionarPaciente`
builds them, whose weight and height are finite numbers, `salvarPacientes` followed by
`carregarPacientes` (both succeeding) puts an equal sequence in memory: the same records in
the same order, equal field for field. -/
theorem salvar_carregar (st : AppState) (c : List JSVal)
    (hc : ∀ p ∈ c, ∃ ident f w h imc, p = novoPaciente ident f w h imc ∧
      w.finito64 = true ∧ h.finito64 = true) :
    (carregarPacientes false (salvarPacientes false (.arr c) st)).pacientes = .arr c ∧
      (carregarPacientes false (salvarPacientes false (.arr c) st)).alertas = st.alertas := by
  have hst : (JSVal.arr c).estavel = true := by
    rw [JSVal.estavel]
    apply estavelLista_of_forall
    intro p hp
    obtain ⟨ident, f, w, h, imc, rfl, hw, hh⟩ := hc p hp
    exact novoPaciente_estavel ident f w h imc hw hh
  rw [carregar_salvar_estavel st c hst]
  exact ⟨rfl, rfl⟩

/-- Witness for C8: the store after adding the patient of `estadoComFormulario` to an
empty collection is read back unchanged. -/
theorem salvar_carregar_witness :
    (∀ p ∈ [novoPaciente "0.5" estadoComFormulario.formData (.fin 70) (.fin (7 / 4))
          (calcularIMC (.fin 70) (.fin (7 / 4)))],
        ∃ ident f w h imc, p = novoPaciente ident f w h imc ∧
          w.finito64 = true ∧ h.finito64 = true) ∧
    (salvarPacientes false (.arr [novoPaciente "0.5" estadoComFormulario.formData (.fin 70)
        (.fin (7 / 4)) (calcularIMC (.fin 70) (.fin (7 / 4)))]) (estadoInicial none)).armazenado
      = some ("[\x7b\"id\":\"0.5\"," ++
          "\"nome\":\"Bia\",\"peso\":70,\"altura\":1.75,\"idade\":\"30\"," ++
          "\"sexo\":\"feminino\",\"telefone\":\"555\",\"email\":\"bia@example.org\"," ++
          "\"endereco\":\"Rua A\",\"imc\":\"22.86\",\"classificacao\":\"Peso normal\"," ++
          "\"pesoIdeal\":\"62.50\"\x7d]") ∧
    (carregarPacientes false (salvarPacientes false
        (.arr [novoPaciente "0.5" estadoComFormulario.formData (.fin 70) (.fin (7 / 4))
          (calcularIMC (.fin 70) (.fin (7 / 4)))]) (estadoInicial none))).pacientes
      = .arr [novoPaciente "0.5" estadoComFormulario.formData (.fin 70) (.fin (7 / 4))
          (calcularIMC (.fin 70) (.fin (7 / 4)))] :=
  ⟨by
      intro p hp
      rw [List.mem_singleton] at hp
      exact ⟨_, _, _, _, _, hp, by decide!, by decide!⟩,
    by decide!,
    (salvar_carregar (estadoInicial none) _ (by
      intro p hp
      rw [List.mem_singleton] at hp
      exact ⟨_, _, _, _, _, hp, by decide!, by decide!⟩)).1⟩

/-- The record that `adicionarPaciente` builds from a form whose weight and height parse to
finite numbers is written without loss. -/
theorem novoPaciente_parseFloat_estavel (ident : String) (f : FormData) (imc : IMC)
    (w h : ℚ) (hw : parseFloat f.peso = .fin w) (hh : parseFloat f.altura = .fin h) :
    (novoPaciente ident f (parseFloat f.peso) (parseFloat f.altura) imc).estavel = true :=
  novoPaciente_estavel ident f _ _ imc (parseFloat_finito64 f.peso w hw)
    (parseFloat_finito64 f.altura h hh)

end NutriCare
